import Mathlib

/-!
Verification of the depfused dependency-confusion scanner.

This file gives a shallow embedding of the parts of the scanner that the
verified properties talk about: package-name normalization and validation
(src/parser/mod.rs), the false-positive filters (src/parser/filters.rs),
deduplication, finding emission and severity (src/scanner.rs), the npm
scope-ownership cascade (src/registry/npm.rs), the source-map extractor
(src/parser/sourcemap.rs), host grouping (src/browser.rs), the JS fetcher
retry loop (src/discovery/js_fetcher.rs) and the batch orchestrator
(src/scanner.rs).

Rust strings are modelled as lists of Unicode scalar values (List Char);
Rust byte lengths / byte offsets are recovered through Char.utf8Size, so
length checks such as name.len() > 214 are faithful to the byte semantics
of the source.  HTTP, the browser and the filesystem are modelled as
oracles passed in explicitly.
-/

namespace Depfused

/-- Strings of the embedded program: Rust str as a list of Unicode scalars. -/
abbrev Str := List Char

/-- Rust str::len -- the UTF-8 byte length of a string. -/
def utf8Len (s : Str) : Nat := (s.map Char.utf8Size).sum

/-- Rust str::starts_with for a string pattern. -/
def strStartsWith (s pat : Str) : Bool := pat.isPrefixOf s

/-- Rust str::ends_with for a string pattern. -/
def strEndsWith (s pat : Str) : Bool := pat.isSuffixOf s

/-- Rust str::contains for a string pattern (substring search). -/
def strContains : Str → Str → Bool
  | s@(_ :: rest), pat => pat.isPrefixOf s || strContains rest pat
  | [], pat => pat.isEmpty

/-- Rust str::find for a string pattern: BYTE offset of the first occurrence. -/
def strFind : Str → Str → Option Nat
  | s@(c :: rest), pat =>
    if pat.isPrefixOf s then some 0
    else (strFind rest pat).map (fun n => c.utf8Size + n)
  | [], pat => if pat.isEmpty then some 0 else none

/-- Drop the leading characters that lie entirely inside the first n BYTES
(models taking a Rust slice s꞉[n..] at a char boundary; a char straddling the
boundary is kept). -/
def byteDrop : Str → Nat → Str
  | s, 0 => s
  | [], _ => []
  | c :: rest, n => if c.utf8Size ≤ n then byteDrop rest (n - c.utf8Size) else c :: rest

/-- Take the leading characters that lie entirely inside the first n BYTES
(models a Rust slice s꞉[..n] at a char boundary). -/
def byteTake : Str → Nat → Str
  | _, 0 => []
  | [], _ => []
  | c :: rest, n => if c.utf8Size ≤ n then c :: byteTake rest (n - c.utf8Size) else []

/-- Rust char::is_whitespace: the Unicode White_Space code points. -/
def isRustWhitespace (c : Char) : Bool :=
  c.toNat = 32 || (9 ≤ c.toNat && c.toNat ≤ 13) || c.toNat = 0x85 || c.toNat = 0xA0 ||
  c.toNat = 0x1680 || (0x2000 ≤ c.toNat && c.toNat ≤ 0x200A) ||
  c.toNat = 0x2028 || c.toNat = 0x2029 || c.toNat = 0x202F ||
  c.toNat = 0x205F || c.toNat = 0x3000

/-- Rust str::trim: strip leading and trailing whitespace. -/
def rustTrim (s : Str) : Str :=
  ((s.dropWhile isRustWhitespace).reverse.dropWhile isRustWhitespace).reverse

/-- Rust str::trim_start_matches for a single character. -/
def trimStartMatches (s : Str) (c : Char) : Str := s.dropWhile (· = c)

/-- Rust str.split(sep).next(): the segment before the first separator
(the whole string when the separator does not occur). -/
def splitFirst (s : Str) (sep : Char) : Str := s.takeWhile (· ≠ sep)

/-- Split a string at the FIRST occurrence of a separator character;
none when the separator does not occur. -/
def splitOnce : Str → Char → Option (Str × Str)
  | [], _ => none
  | c :: rest, sep =>
    if c = sep then some ([], rest)
    else (splitOnce rest sep).map (fun p => (c :: p.1, p.2))

/-- Rust str.splitn(3, sep).collect(): at most three parts, the last one
keeping any further separators. -/
def splitn3 (s : Str) (sep : Char) : List Str :=
  match splitOnce s sep with
  | none => [s]
  | some (a, rest) =>
    match splitOnce rest sep with
    | none => [a, rest]
    | some (b, rest2) => [a, b, rest2]

/-- Rust str.split(sep) as a full list of segments. -/
def splitAll : Str → Char → List Str
  | [], _ => [[]]
  | c :: rest, sep =>
    if c = sep then [] :: splitAll rest sep
    else
      match splitAll rest sep with
      | [] => [[c]]
      | h :: t => (c :: h) :: t

/-- Rust char::is_ascii_hexdigit. -/
def charIsHex (c : Char) : Bool := c.isDigit || ('a' ≤ c && c ≤ 'f') || ('A' ≤ c && c ≤ 'F')

/-- Rust str::to_lowercase, restricted to its ASCII action (the scanner only
compares against ASCII constants). -/
def strToLower (s : Str) : Str := s.map Char.toLower

/-! ## src/parser/mod.rs: package-name normalization and validation -/

/-- The Node.js built-in module list of is_node_builtin (src/parser/mod.rs). -/
def nodeBuiltins : List Str :=
  [("assert".data), ("async_hooks".data), ("buffer".data), ("child_process".data),
   ("cluster".data), ("console".data), ("constants".data), ("crypto".data),
   ("dgram".data), ("dns".data), ("domain".data), ("events".data), ("fs".data),
   ("http".data), ("http2".data), ("https".data), ("inspector".data),
   ("module".data), ("net".data), ("os".data), ("path".data), ("perf_hooks".data),
   ("process".data), ("punycode".data), ("querystring".data), ("readline".data),
   ("repl".data), ("stream".data), ("string_decoder".data), ("sys".data),
   ("timers".data), ("tls".data), ("trace_events".data), ("tty".data),
   ("url".data), ("util".data), ("v8".data), ("vm".data), ("wasi".data),
   ("worker_threads".data), ("zlib".data)]

/-- is_node_builtin (src/parser/mod.rs): membership in the built-in set after
stripping an optional leading node: prefix. -/
def is_node_builtin (name : Str) : Bool :=
  let base := if strStartsWith name ("node:".data) then name.drop 5 else name
  nodeBuiltins.contains base

/-- is_valid_package_name (src/parser/mod.rs): non-empty, at most 214 bytes,
not starting with a dot or underscore, characters in lowercase ASCII, digits,
dash, underscore, dot. -/
def is_valid_package_name (name : Str) : Bool :=
  if name.isEmpty || utf8Len name > 214 then false
  else if strStartsWith name (".".data) || strStartsWith name ("_".data) then false
  else name.all (fun c => c.isLower || c.isDigit || c = '-' || c = '_' || c = '.')

/-- is_valid_scope (src/parser/mod.rs): an at-sign followed by a non-empty
string of at most 214 bytes of lowercase ASCII, digits, dash, underscore. -/
def is_valid_scope (scope : Str) : Bool :=
  if !strStartsWith scope ("@".data) then false
  else
    let name := scope.drop 1
    if name.isEmpty || utf8Len name > 214 then false
    else name.all (fun c => c.isLower || c.isDigit || c = '-' || c = '_')

/-- normalize_package_name (src/parser/mod.rs). -/
def normalize_package_name (name : Str) : Option Str :=
  let trimmed := rustTrim name
  if trimmed.isEmpty then none
  else if strStartsWith trimmed (".".data) || strStartsWith trimmed ("/".data) then none
  else if is_node_builtin trimmed then none
  else if strStartsWith trimmed ("@".data) then
    match splitn3 trimmed '/' with
    | scope :: pkg :: _ =>
      if !is_valid_scope scope then none
      else if !is_valid_package_name pkg then none
      else some (scope ++ '/' :: pkg)
    | _ => none
  else
    let pkgName := splitFirst trimmed '/'
    if !is_valid_package_name pkgName then none
    else some pkgName

/-- The bundler-artifact names of is_likely_false_positive (src/parser/mod.rs). -/
def bundlerArtifacts : List Str :=
  [("template_id".data), ("chunk_id".data), ("module_id".data), ("webpack_require".data),
   ("webpackChunk".data), ("installedModules".data), ("installedChunks".data),
   ("__webpack".data), ("list-v".data), ("list-a".data), ("list-b".data),
   ("list-c".data), ("list-d".data), ("list-e".data)]

/-- The generic single-word names of is_likely_false_positive. -/
def genericNames : List Str :=
  [("id".data), ("key".data), ("value".data), ("data".data), ("config".data),
   ("options".data), ("params".data), ("result".data), ("response".data),
   ("request".data), ("error".data), ("callback".data)]

/-- The JavaScript built-in identifiers of is_likely_false_positive. -/
def jsBuiltins : List Str :=
  [("constructor".data), ("prototype".data), ("object".data), ("function".data),
   ("array".data), ("string".data), ("number".data), ("boolean".data),
   ("symbol".data), ("undefined".data), ("null".data), ("keys".data),
   ("values".data), ("entries".data), ("length".data), ("name".data),
   ("apply".data), ("call".data), ("bind".data), ("create".data),
   ("define".data), ("freeze".data), ("seal".data), ("assign".data),
   ("hasownproperty".data), ("tostring".data), ("valueof".data),
   ("getprototypeof".data), ("isprototypeof".data), ("propertyisenumerable".data)]

/-- The WebpackChunk-specific suffixes of is_likely_false_positive. -/
def webpackSuffixes : List Str :=
  [("-handler".data), ("-tgl".data), ("-btn".data), ("-grp".data), ("-chkbox".data)]

/-- The WebpackChunk internal-name patterns of is_likely_false_positive. -/
def webpackPatterns : List Str :=
  [("consent-".data), ("opt-out-".data), ("privacy-".data), ("purpose-".data),
   ("feature-".data), ("checkbox-".data), ("legclaim-".data), ("spl-".data),
   ("header-id".data), ("leg-".data), ("close-pc-".data), ("list-save-".data),
   ("search-".data), ("groups-".data), ("option-".data), ("cookie-".data),
   ("label-".data), ("purposes-".data), ("header-container".data),
   ("portal-".data), ("uw-".data)]

/-- The top-level-domain fragments of is_likely_false_positive. -/
def tldFragments : List Str :=
  [(".com".data), (".org".data), (".net".data), (".io".data), (".co".data),
   (".me".data), (".ai".data), (".dev".data), (".app".data), (".edu".data),
   (".gov".data), (".mil".data), (".int".data), (".biz".data), (".info".data),
   (".name".data), (".pro".data), (".ae".data), (".uk".data), (".ca".data),
   (".au".data), (".de".data), (".fr".data), (".jp".data), (".cn".data),
   (".in".data), (".br".data), (".ru".data), (".it".data), (".es".data),
   (".nl".data), (".se".data), (".no".data), (".dk".data), (".fi".data),
   (".gr".data), (".si".data), (".la".data), (".be".data), (".ch".data),
   (".at".data)]

/-- The state-word names of is_likely_false_positive. -/
def moreGenericNames : List Str :=
  [("initialized".data), ("loaded".data), ("ready".data), ("active".data),
   ("enabled".data), ("disabled".data), ("visible".data), ("hidden".data),
   ("selected".data), ("focused".data), ("checked".data), ("valid".data)]

/-- The DOM event names of is_likely_false_positive. -/
def domEvents : List Str :=
  [("mousedown".data), ("mouseup".data), ("mousemove".data), ("mouseover".data),
   ("mouseout".data), ("mouseenter".data), ("mouseleave".data), ("touchstart".data),
   ("touchend".data), ("touchmove".data), ("touchcancel".data), ("keydown".data),
   ("keyup".data), ("keypress".data), ("beforeunload".data), ("visibilitychange".data),
   ("readystatechange".data), ("onmessage".data), ("ontouchend".data),
   ("ontouchstart".data), ("pointerdown".data), ("pointerup".data),
   ("pointermove".data), ("contextmenu".data), ("focusin".data), ("focusout".data),
   ("compositionstart".data), ("compositionend".data)]

/-- The web-API constants of is_likely_false_positive. -/
def webConstants : List Str :=
  [("unsafe-url".data), ("no-referrer".data), ("same-origin".data),
   ("strict-origin".data), ("evenodd".data), ("alphabetic".data),
   ("experimental-webgl".data)]

/-- is_likely_false_positive (src/parser/mod.rs): the secondary heuristic
rejection applied to candidate names during deduplication. -/
def is_likely_false_positive (name : Str) : Bool :=
  -- design-system breakpoint identifiers: @...-list/...-list-{xs,sm,md,lg,xl}
  if strStartsWith name ("@".data) &&
     (strEndsWith name ("-xs".data) || strEndsWith name ("-sm".data) ||
      strEndsWith name ("-md".data) || strEndsWith name ("-lg".data) ||
      strEndsWith name ("-xl".data)) &&
     strContains name ("-list/".data) && strContains name ("-list-".data) then true
  -- scoped packages are otherwise exempt from the secondary heuristic
  else if strStartsWith name ("@".data) then false
  else if utf8Len name ≤ 2 then true
  else if strEndsWith name ("_id".data) || strEndsWith name ("_ID".data) ||
          strEndsWith name ("Id".data) then true
  else if bundlerArtifacts.any (fun a => name = a || strStartsWith name a) then true
  else if utf8Len name ≤ 8 && strContains name ("-".data) &&
          (match splitAll name '-' with
           | [_, lastPart] => utf8Len lastPart ≤ 2 && lastPart.all Char.isAlpha
           | _ => false) then true
  else if genericNames.contains name then true
  else if utf8Len name ≥ 6 && name.all charIsHex &&
          name.any Char.isAlpha && name.any Char.isDigit then true
  else if jsBuiltins.contains (strToLower name) then true
  else if 3 ≤ utf8Len name && utf8Len name ≤ 4 &&
          (name.all Char.isLower ||
           (name.any Char.isDigit && name.all Char.isAlphanum)) then true
  else if webpackSuffixes.any (fun s => strEndsWith name s) then true
  else if webpackPatterns.any (fun p => strStartsWith name p || strContains name p) then true
  else if [("rakbank".data)].contains (strToLower name) then true
  else if strContains name ("-".data) &&
          (match (splitAll name '-').getLast? with
           | some lastPart => utf8Len lastPart ≥ 12 && lastPart.all charIsHex
           | none => false) then true
  else if tldFragments.any (fun t => strContains name t) then true
  else if moreGenericNames.contains (strToLower name) then true
  else if domEvents.contains (strToLower name) then true
  else if webConstants.contains name then true
  else false

/-- is_likely_internal (src/parser/mod.rs): scope or name contains an
internal/private indicator. -/
def is_likely_internal (name : Str) : Bool :=
  let scopeHit :=
    if strStartsWith name ("@".data) then
      let scope := splitFirst name '/'
      [("internal".data), ("private".data), ("corp".data), ("company".data),
       ("team".data), ("org".data), ("enterprise".data)].any
        (fun ind => strContains scope ind)
    else false
  scopeHit ||
    [("internal".data), ("private".data), ("-internal".data), ("-private".data),
     ("_internal".data), ("_private".data)].any (fun ind => strContains name ind)

/-! ## src/parser/filters.rs: the layered false-positive master filter -/

/-- The UI component name openings of is_likely_css_class (src/parser/filters.rs). -/
def uiOpenings : List Str :=
  [("card-".data), ("button-".data), ("modal-".data), ("form-".data),
   ("input-".data), ("nav-".data), ("header-".data), ("footer-".data),
   ("menu-".data), ("dropdown-".data), ("table-".data), ("list-".data),
   ("item-".data), ("icon-".data), ("badge-".data), ("panel-".data),
   ("widget-".data), ("container-".data), ("wrapper-".data), ("disclosure-".data),
   ("accordion-".data), ("tab-".data), ("dialog-".data), ("tooltip-".data),
   ("popover-".data), ("alert-".data), ("banner-".data), ("vendor-".data),
   ("dashboard-".data), ("profile-".data), ("group-".data)]

/-- The UI component name endings of is_likely_css_class. -/
def uiEndings : List Str :=
  [("-container".data), ("-wrapper".data), ("-component".data), ("-widget".data),
   ("-panel".data), ("-section".data), ("-group".data), ("-box".data),
   ("-area".data), ("-back".data), ("-front".data), ("-image".data),
   ("-name".data), ("-categories".data), ("-location".data), ("-contact".data),
   ("-details".data), ("-heading".data)]

/-- is_likely_css_class (src/parser/filters.rs): BEM patterns and UI component
naming conventions. -/
def is_likely_css_class (package_name : Str) : Bool :=
  if strContains package_name ("--".data) then true
  else if strContains package_name ("__".data) then true
  else if uiOpenings.any (fun p => strStartsWith package_name p) then true
  else if uiEndings.any (fun s => strEndsWith package_name s) then true
  else false

/-- is_regex_pattern (src/parser/filters.rs): regex flags at the end of a name. -/
def is_regex_pattern (package_name : Str) : Bool :=
  strEndsWith package_name ("/g".data) || strEndsWith package_name ("/i".data) ||
  strEndsWith package_name ("/m".data) || strEndsWith package_name ("/gi".data) ||
  strEndsWith package_name ("/gm".data) || strEndsWith package_name ("/im".data)

/-- The bundler name openings of is_bundler_artifact. -/
def bundlerOpenings : List Str :=
  [("@playwri_".data), ("@sw_".data), ("@parcel_".data), ("@turbo_".data),
   ("@pnpm_".data), ("@vite_".data), ("@esbuild_".data)]

/-- is_bundler_artifact (src/parser/filters.rs): long hex hashes after an
underscore, or known bundler openings. -/
def is_bundler_artifact (package_name : Str) : Bool :=
  (strContains package_name ("_".data) &&
    (match splitAll package_name '_' with
     | _ :: parts1 =>
       !parts1.isEmpty &&
         parts1.any (fun part => utf8Len part ≥ 32 && part.all charIsHex)
     | [] => false)) ||
  bundlerOpenings.any (fun p => strStartsWith package_name p)

/-- The obfuscation patterns of is_obfuscation_artifact. -/
def obfuscationPatterns : List Str :=
  [("icjsn".data), ("ipjsn".data), ("w-patterns".data), ("tmx_".data),
   ("fp_".data), ("dfp_".data), ("threat-".data), ("imperva-".data),
   ("incapsula-".data)]

/-- is_obfuscation_artifact (src/parser/filters.rs): hex identifiers, security
tool patterns, and short low-vowel names. -/
def is_obfuscation_artifact (package_name : Str) : Bool :=
  if strStartsWith package_name ("0x".data) &&
     (package_name.drop 2).all charIsHex then true
  else if obfuscationPatterns.any (fun p => strContains package_name p) then true
  else if utf8Len package_name ≤ 5 && !strContains package_name ("/".data) &&
          (package_name.filter
            (fun c => [('a'), ('e'), ('i'), ('o'), ('u')].contains c.toLower)).length ≤ 1
          then true
  else false

/-- The URL indicators of is_url_path_component. -/
def urlIndicators : List Str :=
  [("http://".data), ("https://".data), ("ftp://".data), (".com/".data),
   (".gov/".data), (".org/".data), (".edu/".data), (".net/".data),
   (".io/".data), (".co/".data), (".pdf".data), (".html".data),
   (".xml".data), (".json".data)]

/-- is_url_path_component (src/parser/filters.rs): the name appears in the
content within 100 bytes after a URL indicator, and the window carries neither
a webpack:// protocol nor a node_modules segment. -/
def is_url_path_component (package_name : Str) (source_context : Option Str) : Bool :=
  match source_context with
  | none => false
  | some context =>
    urlIndicators.any (fun indicator =>
      strContains context indicator &&
      (match strFind context package_name with
       | none => false
       | some pkgPos =>
         let contextStart := pkgPos - 100
         let contextSlice := byteTake (byteDrop context contextStart) (pkgPos - contextStart)
         urlIndicators.any (fun urlInd => strContains contextSlice urlInd) &&
           !strContains contextSlice ("webpack://".data) &&
           !strContains contextSlice ("node_modules".data)))

/-- The service CDN hosts of is_service_integration. -/
def serviceCdns : List Str :=
  [("osano.com".data), ("carrotquest.io".data), ("newrelic.com".data),
   ("google-analytics.com".data), ("googletagmanager.com".data),
   ("yandex.ru".data), ("yandex.net".data), ("segment.com".data),
   ("intercom.io".data), ("zendesk.com".data), ("hubspot.com".data),
   ("hotjar.com".data), ("amplitude.com".data), ("mixpanel.com".data)]

/-- The service name patterns of is_service_integration. -/
def servicePatterns : List Str :=
  [("carrot-quest".data), ("newrelic-".data), ("google-tagmanager".data),
   ("yandex-analytics".data), ("intercom-".data), ("zendesk-".data),
   ("hotjar-".data), ("amplitude-".data), ("mixpanel-".data)]

/-- is_service_integration (src/parser/filters.rs). -/
def is_service_integration (package_name : Str) (source_url : Option Str) : Bool :=
  (match source_url with
   | some url => serviceCdns.any (fun cdn => strContains url cdn)
   | none => false) ||
  servicePatterns.any (fun p => strContains package_name p)

/-- The i18n namespacing indicators of is_i18n_key. -/
def i18nIndicators : List Str :=
  [("seo_texts@".data), ("i18n@".data), ("t@".data), ("translate@".data),
   ("locale@".data), ("lang@".data), ("messages@".data), ("strings@".data),
   ("_texts@".data), ("_labels@".data)]

/-- is_i18n_key (src/parser/filters.rs). -/
def is_i18n_key (package_name : Str) (source_context : Option Str) : Bool :=
  (match source_context with
   | some context => i18nIndicators.any (fun ind => strContains context ind)
   | none => false) ||
  (strStartsWith package_name ("@seo_tags/".data) ||
   strStartsWith package_name ("@i18n/".data) ||
   strStartsWith package_name ("@locale/".data) ||
   strStartsWith package_name ("@translations/".data))

/-- The Odoo module scope openings of is_odoo_module. -/
def odooScopes : List Str :=
  [("@web/".data), ("@web_tour/".data), ("@odoo/".data), ("@mail/".data),
   ("@portal/".data), ("@website/".data), ("@point_of_sale/".data),
   ("@pos/".data), ("@stock/".data), ("@account/".data), ("@sale/".data),
   ("@purchase/".data), ("@crm/".data), ("@hr/".data), ("@project/".data),
   ("@auth_".data)]

/-- is_odoo_module (src/parser/filters.rs): Odoo asset URLs, odoo.define
contexts, Odoo scopes, and scopes with two or more underscores.  The slice
name[1..scope_end] of the source (scope_end the byte offset of the first
slash, or the length) is the run of characters between the at-sign and the
first slash. -/
def is_odoo_module (package_name : Str) (source_context : Option Str)
    (source_url : Option Str) : Bool :=
  if (match source_url with
      | some url => strContains url ("/web/assets/".data)
      | none => false) then true
  else if (match source_context with
           | some context => strContains context ("odoo.define".data)
           | none => false) then true
  else if odooScopes.any (fun s => strStartsWith package_name s) then true
  else if strStartsWith package_name ("@".data) &&
          strContains package_name ("_".data) &&
          ((splitFirst (package_name.drop 1) '/').filter (fun c => c = '_')).length ≥ 2
          then true
  else false

/-- should_filter_package (src/parser/filters.rs): the master false-positive
filter, applying the nine families in sequence. -/
def should_filter_package (package_name : Str) (source_context : Option Str)
    (source_url : Option Str) : Bool :=
  if package_name = ("node_modules".data) ||
     strStartsWith package_name ("node_modules_".data) ||
     strStartsWith package_name ("node_modules/".data) then true
  else if is_likely_css_class package_name then true
  else if is_regex_pattern package_name then true
  else if is_bundler_artifact package_name then true
  else if is_obfuscation_artifact package_name then true
  else if is_url_path_component package_name source_context then true
  else if is_service_integration package_name source_url then true
  else if is_i18n_key package_name source_context then true
  else if is_odoo_module package_name source_context source_url then true
  else false

/-! ## src/types.rs: scanner data model -/

/-- Confidence (src/types.rs), ordered Low < Medium < High by the derived Ord. -/
inductive Confidence where
  | Low
  | Medium
  | High
deriving DecidableEq, Repr

/-- The rank Rust's derived Ord assigns to a Confidence (declaration order). -/
def confRank : Confidence → Nat
  | .Low => 0
  | .Medium => 1
  | .High => 2

/-- ExtractionMethod (src/types.rs). -/
inductive ExtractionMethod where
  | Import
  | Require
  | DynamicImport
  | SourceMap
  | WebpackChunk
  | Comment
  | ErrorMessage
  | Deobfuscate
deriving DecidableEq, Repr

/-- Package (src/types.rs). -/
structure Package where
  name : Str
  extraction_method : ExtractionMethod
  source_url : Str
  confidence : Confidence
deriving DecidableEq, Repr

/-- NpmCheckResult (src/types.rs). -/
inductive NpmCheckResult where
  | Exists (name : Str) (latest_version : Option Str)
  | NotFound (name : Str)
  | ScopeNotClaimed (scope : Str) (name : Str)
  | Error (name : Str) (error : Str)
deriving DecidableEq, Repr

/-- The name field every NpmCheckResult variant carries. -/
def npmResultName : NpmCheckResult → Str
  | .Exists name _ => name
  | .NotFound name => name
  | .ScopeNotClaimed _ name => name
  | .Error name _ => name

/-- Severity (src/types.rs), ordered Info < Low < Medium < High < Critical. -/
inductive Severity where
  | Info
  | Low
  | Medium
  | High
  | Critical
deriving DecidableEq, Repr

/-- Finding (src/types.rs). -/
structure Finding where
  package : Package
  npm_result : NpmCheckResult
  severity : Severity
  notes : List Str
deriving DecidableEq, Repr

/-! ## src/scanner.rs: finding construction, emission and deduplication -/

/-- Scanner::create_finding (src/scanner.rs): severity is a pure function of
the npm result and is_likely_internal; notes flag internal-looking names and
low-confidence extractions. -/
def create_finding (package : Package) (npm_result : NpmCheckResult) : Finding :=
  let severity :=
    match npm_result with
    | .ScopeNotClaimed _ _ => Severity.Critical
    | .NotFound _ =>
      if is_likely_internal package.name then Severity.High else Severity.Medium
    | .Exists _ _ => Severity.Info
    | .Error _ _ => Severity.Low
  let notes :=
    (if is_likely_internal package.name then
      [("Package name suggests internal/private usage".data)]
     else []) ++
    (if package.confidence = Confidence.Low then
      [("Low confidence extraction - verify manually".data)]
     else [])
  { package := package, npm_result := npm_result, severity := severity, notes := notes }

/-- The should_report match of Scanner::process_captured_js (src/scanner.rs):
ScopeNotClaimed, unscoped NotFound, Exists and Error are reported; scoped
NotFound is suppressed. -/
def should_report : NpmCheckResult → Bool
  | .ScopeNotClaimed _ _ => true
  | .NotFound name => !strStartsWith name ("@".data)
  | .Exists _ _ => true
  | .Error _ _ => true

/-- The findings loop of Scanner::process_captured_js (src/scanner.rs): build
a Finding for each (package, result) pair and keep it iff should_report
accepts the finding's npm result. -/
def buildFindings : List (Package × NpmCheckResult) → List Finding
  | [] => []
  | (package, result) :: rest =>
    let finding := create_finding package result
    if should_report finding.npm_result then finding :: buildFindings rest
    else buildFindings rest

/-- extraction_priority (src/scanner.rs). -/
def extraction_priority : ExtractionMethod → Nat
  | .Import | .Require | .DynamicImport => 3
  | .SourceMap | .WebpackChunk => 2
  | .Comment | .ErrorMessage | .Deobfuscate => 1

/-- should_skip_package (src/scanner.rs): the secondary rejection applied
during deduplication. -/
def should_skip_package (pkg : Package) : Bool :=
  if is_likely_false_positive pkg.name then true
  else if pkg.extraction_method = ExtractionMethod.WebpackChunk &&
          !strContains pkg.name ("-".data) && !strContains pkg.name ("/".data) &&
          utf8Len pkg.name < 20 then true
  else if pkg.extraction_method = ExtractionMethod.Comment &&
          !strContains pkg.name ("-".data) &&
          !strStartsWith pkg.name ("@".data) then true
  else false

/-- The should_insert test of deduplicate_packages (src/scanner.rs): strictly
higher confidence, or equal confidence and strictly higher method priority. -/
def dedupBetter (pkg existing : Package) : Bool :=
  confRank pkg.confidence > confRank existing.confidence ||
  (pkg.confidence = existing.confidence &&
   extraction_priority pkg.extraction_method > extraction_priority existing.extraction_method)

/-- One step of the by_name map of deduplicate_packages: replace the entry for
the name when the new candidate wins, insert when the name is new. -/
def dedupInsert : List (Str × Package) → Package → List (Str × Package)
  | [], pkg => [(pkg.name, pkg)]
  | (n, existing) :: rest, pkg =>
    if n = pkg.name then
      if dedupBetter pkg existing then (n, pkg) :: rest else (n, existing) :: rest
    else (n, existing) :: dedupInsert rest pkg

/-- deduplicate_packages (src/scanner.rs): drop candidates rejected by
should_skip_package, then keep per name the best record seen.  The HashMap is
modelled as an association list in key insertion order; its values are read
off in that order. -/
def deduplicate_packages (packages : List Package) : List Package :=
  (packages.foldl
    (fun by_name pkg =>
      if should_skip_package pkg then by_name else dedupInsert by_name pkg)
    []).map (fun e => e.2)

/-! ## src/registry/npm.rs: the registry checker

HTTP is modelled by handing the checker the reply of each GET it would issue.
A reply is a transport failure (with the error display string), or a status
code together with the body: the body is none when reading the text or
parsing it as JSON fails, and the parsed JSON value otherwise. -/

/-- A JSON value as serde_json exposes it to the checker. -/
inductive Json where
  | null
  | bool (b : Bool)
  | num (n : Int)
  | str (s : Str)
  | arr (elems : List Json)
  | obj (fields : List (Str × Json))

/-- serde_json Value::get for an object key (none on non-objects). -/
def jsonGet : Json → Str → Option Json
  | .obj fields, key => (fields.find? (fun f => f.1 = key)).map (fun f => f.2)
  | _, _ => none

/-- serde_json Value::as_bool. -/
def jsonAsBool : Json → Option Bool
  | .bool b => some b
  | _ => none

/-- One HTTP exchange as the checker observes it. -/
inductive HttpReply where
  | failed (msg : Str)
  | resp (status : Nat) (body : Option Json)

/-- reqwest StatusCode::is_success: the 2xx range. -/
def is2xx (status : Nat) : Bool := 200 ≤ status && status ≤ 299

/-- reqwest StatusCode::is_client_error: the 4xx range. -/
def is4xx (status : Nat) : Bool := 400 ≤ status && status ≤ 499

/-- The decimal rendering of a status code.  (The reqwest Display also appends
the canonical reason phrase; no property here reads the message, so the model
keeps the digits only.) -/
def statusMsg (status : Nat) : Str := ("HTTP ".data) ++ Nat.toDigits 10 status

/-- serde deserialization of an optional string field from its looked-up
value: absent and null give none, a string gives some, anything else fails. -/
def parseOptString : Option Json → Option (Option Str)
  | none => some none
  | some Json.null => some none
  | some (Json.str s) => some (some s)
  | some _ => none

/-- serde deserialization of a required string field from its looked-up value. -/
def parseReqString : Option Json → Option Str
  | some (Json.str s) => some s
  | _ => none

/-- serde deserialization of NpmPackageInfo (src/registry/npm.rs): a required
name and an optional dist-tags object with an optional latest; yields
dist_tags.and_then(latest). -/
def parsePackageInfo (j : Json) : Option (Option Str) :=
  match j with
  | .obj _ => do
    let _name ← parseReqString (jsonGet j ("name".data))
    match jsonGet j ("dist-tags".data) with
    | none => some none
    | some Json.null => some none
    | some (Json.obj dtf) => parseOptString (jsonGet (Json.obj dtf) ("latest".data))
    | some _ => none
  | _ => none

/-- serde deserialization of one NpmSearchObject (src/registry/npm.rs): a
required package object with a required name and optional scope; yields the
package name. -/
def parseSearchObject (j : Json) : Option Str :=
  match j with
  | .obj _ =>
    match jsonGet j ("package".data) with
    | some pkg =>
      match pkg with
      | .obj _ => do
        let name ← parseReqString (jsonGet pkg ("name".data))
        let _scope ← parseOptString (jsonGet pkg ("scope".data))
        some name
      | _ => none
    | none => none
  | _ => none

/-- serde deserialization of NpmSearchResponse (src/registry/npm.rs): a
required objects array; yields the package names. -/
def parseSearchResponse (j : Json) : Option (List Str) :=
  match j with
  | .obj _ =>
    match jsonGet j ("objects".data) with
    | some (Json.arr elems) => elems.mapM parseSearchObject
    | _ => none
  | _ => none

/-- NpmChecker::check_regular_package (src/registry/npm.rs). -/
def check_regular_package (package_name : Str) (reply : HttpReply) : NpmCheckResult :=
  match reply with
  | .resp status body =>
    if is2xx status then
      match body with
      | some j =>
        match parsePackageInfo j with
        | some latest => NpmCheckResult.Exists package_name latest
        | none => NpmCheckResult.Exists package_name none
      | none => NpmCheckResult.Exists package_name none
    else if status = 404 then NpmCheckResult.NotFound package_name
    else NpmCheckResult.Error package_name (statusMsg status)
  | .failed msg => NpmCheckResult.Error package_name msg

/-- NpmChecker::check_scope_ownership (src/registry/npm.rs): the user probe,
the org probe and the scope search, each proving the scope claimed
(returning NotFound) or falling through to the next; ScopeNotClaimed only
when no step proves the scope claimed. -/
def check_scope_ownership (package_name : Str)
    (userReply orgReply searchReply : HttpReply) : NpmCheckResult :=
  let scope := splitFirst package_name '/'
  if scope.isEmpty || !strStartsWith scope ("@".data) then
    NpmCheckResult.NotFound package_name
  else
    -- check 1: does a user with the scope name exist?
    if (match userReply with
        | .resp status (some j) =>
          is2xx status &&
            (((jsonGet j ("ok".data)).bind jsonAsBool).getD false ||
             (jsonGet j ("name".data)).isSome || (jsonGet j ("_id".data)).isSome)
        | _ => false) then
      NpmCheckResult.NotFound package_name
    -- check 2: does an organization with the scope name exist?
    else if (match orgReply with
        | .resp status (some j) =>
          is2xx status && (jsonGet j ("error".data)).isNone
        | _ => false) then
      NpmCheckResult.NotFound package_name
    -- check 3: does any package of the scope exist?
    else if (match searchReply with
        | .resp status (some j) =>
          is2xx status &&
            (match parseSearchResponse j with
             | some names =>
               names.any (fun nm => strStartsWith nm (scope ++ ('/' :: [])))
             | none => false)
        | _ => false) then
      NpmCheckResult.NotFound package_name
    else
      NpmCheckResult.ScopeNotClaimed scope package_name

/-- NpmChecker::check_scoped_package (src/registry/npm.rs): package GET, then
on 404 the scope-ownership cascade. -/
def check_scoped_package (package_name : Str)
    (pkgReply userReply orgReply searchReply : HttpReply) : NpmCheckResult :=
  match pkgReply with
  | .resp status body =>
    if is2xx status then
      match body with
      | some j =>
        match parsePackageInfo j with
        | some latest => NpmCheckResult.Exists package_name latest
        | none => NpmCheckResult.Exists package_name none
      | none => NpmCheckResult.Exists package_name none
    else if status = 404 then
      check_scope_ownership package_name userReply orgReply searchReply
    else NpmCheckResult.Error package_name (statusMsg status)
  | .failed msg => NpmCheckResult.Error package_name msg

/-! ## src/parser/sourcemap.rs: the source-map extractor

The JSON decoding of the map document is done by the external sourcemap crate;
the parser receives the decoded document: its sources array and, aligned with
it, the optional sourcesContent entries. -/

/-- A decoded source-map document as SourceMapParser::parse consumes it. -/
structure SourceMapDoc where
  sources : List Str
  sourcesContent : List (Option Str)

/-- Set insertion for a HashSet of strings, modelled as a duplicate-free list
in insertion order. -/
def insertStr (s : List Str) (x : Str) : List Str :=
  if s.contains x then s else s ++ [x]

/-- Set insertion for a HashSet of packages. -/
def insertPkg (s : List Package) (p : Package) : List Package :=
  if s.contains p then s else s ++ [p]

/-- Strip a webpack:/// or webpack:// opening from a source path
(src/parser/sourcemap.rs). -/
def stripWebpack (path : Str) : Str :=
  if strStartsWith path ("webpack:///".data) then path.drop 11
  else if strStartsWith path ("webpack://".data) then path.drop 10
  else path

/-- SourceMapParser::extract_package_from_path_segment (src/parser/sourcemap.rs). -/
def extract_package_from_path_segment (segment0 : Str) : Option Str :=
  let segment := trimStartMatches segment0 '/'
  if strStartsWith segment ("@".data) then
    match splitAll segment '/' with
    | scope :: package :: _ => normalize_package_name (scope ++ '/' :: package)
    | _ => none
  else
    normalize_package_name (splitFirst segment '/')

/-- One source of the classification pass of SourceMapParser::parse: insert
the name extracted after node_modules/ into the first set, or the name
extracted after packages/ into the second. -/
def smStep (acc : List Str × List Str) (source : Str) : List Str × List Str :=
  let path := stripWebpack source
  match strFind path ("node_modules/".data) with
  | some idx =>
    let after := byteDrop path (idx + 13)
    match extract_package_from_path_segment after with
    | some name => (insertStr acc.1 name, acc.2)
    | none => acc
  | none =>
    match strFind path ("packages/".data) with
    | some idx =>
      let after := byteDrop path (idx + 9)
      match extract_package_from_path_segment after with
      | some name => (acc.1, insertStr acc.2 name)
      | none => acc
    | none => acc

/-- The classification pass of SourceMapParser::parse: the names seen under
node_modules paths and the names seen under packages paths, over the whole
sources array. -/
def smClassify (sources : List Str) : List Str × List Str :=
  sources.foldl smStep ([], [])

/-- SourceMapParser::extract_packages_from_path (src/parser/sourcemap.rs). -/
def extract_packages_from_path (path0 source_url : Str) : Option (List Package) :=
  let path := stripWebpack path0
  let packages : List Package :=
    match strFind path ("node_modules/".data) with
    | some idx =>
      let after_nm := byteDrop path (idx + 13)
      match extract_package_from_path_segment after_nm with
      | some pkg_name =>
        if !should_filter_package pkg_name (some path) (some source_url) then
          [{ name := pkg_name, extraction_method := ExtractionMethod.SourceMap,
             source_url := source_url, confidence := Confidence.High }]
        else []
      | none => []
    | none =>
      match strFind path ("packages/".data) with
      | some idx =>
        let after_packages := byteDrop path (idx + 9)
        match extract_package_from_path_segment after_packages with
        | some pkg_name =>
          if !should_filter_package pkg_name (some path) (some source_url) then
            [{ name := pkg_name, extraction_method := ExtractionMethod.SourceMap,
               source_url := source_url, confidence := Confidence.Low }]
          else []
        | none => []
      | none =>
        if strStartsWith path ("@".data) || strStartsWith path ("~/".data) then
          let clean_path := if strStartsWith path ("~/".data) then path.drop 2 else path
          match extract_package_from_path_segment clean_path with
          | some pkg_name =>
            if !should_filter_package pkg_name (some path) (some source_url) then
              [{ name := pkg_name, extraction_method := ExtractionMethod.SourceMap,
                 source_url := source_url, confidence := Confidence.Medium }]
            else []
          | none => []
        else []
  if packages.isEmpty then none else some packages

/-- Byte offset of the last occurrence of a character (Rust str::rfind). -/
def strRFindCharGo (s : Str) (target : Char) (pos : Nat) (acc : Option Nat) : Option Nat :=
  match s with
  | [] => acc
  | c :: rest =>
    strRFindCharGo rest target (pos + c.utf8Size) (if c = target then some pos else acc)

/-- Rust str::rfind for a character, as a byte offset. -/
def strRFindChar (s : Str) (target : Char) : Option Nat := strRFindCharGo s target 0 none

/-- The two quote characters of the sourcesContent regexes. -/
def quoteChars : List Char := ['"', Char.ofNat 39]

/-- The quoted-name tail shared by the three sourcesContent regexes
(src/parser/sourcemap.rs): a quote, a first character that is neither quote
nor dot nor slash, further non-quote characters, a closing quote.  Returns
the capture and the number of bytes consumed. -/
def matchQuotedName (s : Str) : Option (Str × Nat) :=
  match s with
  | q :: rest =>
    if quoteChars.contains q then
      match rest with
      | c1 :: rest2 =>
        if quoteChars.contains c1 || c1 = '.' || c1 = '/' then none
        else
          let body := rest2.takeWhile (fun c => !quoteChars.contains c)
          match rest2.drop body.length with
          | q2 :: _ =>
            some (c1 :: body, q.utf8Size + c1.utf8Size + utf8Len body + q2.utf8Size)
          | [] => none
      | [] => none
    else none
  | [] => none

/-- Leading whitespace of a string: its byte length and the remainder. -/
def wsCount (s : Str) : Nat × Str :=
  let w := s.takeWhile isRustWhitespace
  (utf8Len w, s.drop w.length)

/-- The three sourcesContent patterns, anchored at the head of the string:
require ( "name" ), from "name", import "name".  Returns the capture and the
byte length of the whole match. -/
def matchContentPattern (pid : Nat) (s : Str) : Option (Str × Nat) :=
  if pid = 0 then
    -- require\s*\(\s*["']([^"'./][^"']*)["']\s*\)
    if strStartsWith s ("require".data) then
      let s1 := s.drop 7
      let (w1, s2) := wsCount s1
      match s2 with
      | '(' :: s3 =>
        let (w2, s4) := wsCount s3
        match matchQuotedName s4 with
        | some (cap, qb) =>
          let s5 := byteDrop s4 qb
          let (w3, s6) := wsCount s5
          match s6 with
          | ')' :: _ => some (cap, 7 + w1 + 1 + w2 + qb + w3 + 1)
          | _ => none
        | none => none
      | _ => none
    else none
  else if pid = 1 then
    -- from\s+["']([^"'./][^"']*)["']
    if strStartsWith s ("from".data) then
      let s1 := s.drop 4
      let (w1, s2) := wsCount s1
      if w1 = 0 then none
      else (matchQuotedName s2).map (fun p => (p.1, 4 + w1 + p.2))
    else none
  else
    -- import\s+["']([^"'./][^"']*)["']
    if strStartsWith s ("import".data) then
      let s1 := s.drop 6
      let (w1, s2) := wsCount s1
      if w1 = 0 then none
      else (matchQuotedName s2).map (fun p => (p.1, 6 + w1 + p.2))
    else none

/-- regex captures_iter for one pattern: leftmost non-overlapping matches,
each as (byte offset of the whole match, capture).  Fuel bounds the scan; it
starts at the character count, which suffices because every match consumes at
least its first ASCII character. -/
def scanMatches (pid : Nat) : Nat → Str → Nat → List (Nat × Str)
  | 0, _, _ => []
  | _ + 1, [], _ => []
  | fuel + 1, s@(c :: rest), pos =>
    match matchContentPattern pid s with
    | some (cap, len) => (pos, cap) :: scanMatches pid fuel (byteDrop s len) (pos + len)
    | none => scanMatches pid fuel rest (pos + c.utf8Size)

/-- SourceMapParser::extract_packages_from_source_content
(src/parser/sourcemap.rs): run the three patterns over the embedded source,
skip matches on commented-out lines, normalize, filter and insert. -/
def extract_packages_from_source_content (content source_url : Str)
    (packages : List Package) : List Package :=
  [0, 1, 2].foldl
    (fun acc pid =>
      (scanMatches pid (content.length + 1) content 0).foldl
        (fun acc2 m =>
          let matchStart := m.1
          let before := byteTake content matchStart
          let lineStart :=
            match strRFindChar before '\n' with
            | some p => p + 1
            | none => 0
          let linePre := rustTrim (byteTake (byteDrop content lineStart) (matchStart - lineStart))
          if strStartsWith linePre ("//".data) || strStartsWith linePre ("*".data) then acc2
          else
            match normalize_package_name m.2 with
            | some pkg_name =>
              if !should_filter_package pkg_name none (some source_url) then
                insertPkg acc2
                  { name := pkg_name, extraction_method := ExtractionMethod.SourceMap,
                    source_url := source_url, confidence := Confidence.Low }
              else acc2
            | none => acc2)
        acc)
    packages

/-- SourceMapParser::parse (src/parser/sourcemap.rs): classify workspace-only
names, mine the sources paths and the embedded sources, and suppress
workspace-only names from the output. -/
def sourcemap_parse (doc : SourceMapDoc) (source_url : Str) :
    List Package × List Str :=
  let classified := smClassify doc.sources
  let node_modules_names := classified.1
  let workspace_names := classified.2
  let workspace_only := workspace_names.filter (fun n => !node_modules_names.contains n)
  let packages :=
    doc.sources.foldl
      (fun acc source =>
        match extract_packages_from_path source source_url with
        | some pkgs => pkgs.foldl insertPkg acc
        | none => acc)
      []
  let packages :=
    doc.sourcesContent.foldl
      (fun acc mc =>
        match mc with
        | some content => extract_packages_from_source_content content source_url acc
        | none => acc)
      packages
  (packages.filter (fun p => !workspace_only.contains p.name), workspace_only)

/-! ## src/browser.rs: host grouping

group_by_host keys each URL by scheme://host[:port] via url::Url::parse.
The model parser below covers absolute URLs of the shape
scheme://host[:port][/path...]: scheme letters before ://, host up to a colon,
slash, question mark or hash, an optional explicit decimal port, and the
suppression of the scheme default port (80 for http, 443 for https) that
Url::port performs.  Anything else (no ://, empty host, bad port) yields no
key, as Url::parse failures do. -/

/-- Model of url::Url::parse restricted to what the key derivation reads:
scheme, host, and optional non-default port. -/
def parseUrlModel (s : Str) : Option (Str × Str × Option Nat) :=
  match strFind s ("://".data) with
  | none => none
  | some idx =>
    let scheme := byteTake s idx
    if scheme.isEmpty || !scheme.all Char.isAlpha then none
    else
      let after := byteDrop s (idx + 3)
      let authority := after.takeWhile (fun c => c ≠ '/' && c ≠ '?' && c ≠ '#')
      let host := authority.takeWhile (fun c => c ≠ ':')
      let portPart := (authority.dropWhile (fun c => c ≠ ':')).drop 1
      if host.isEmpty then none
      else
        let schemeL := strToLower scheme
        let hostL := strToLower host
        if (authority.dropWhile (fun c => c ≠ ':')).isEmpty then
          some (schemeL, hostL, none)
        else if portPart.isEmpty then some (schemeL, hostL, none)
        else if !portPart.all Char.isDigit then none
        else
          let port := portPart.foldl (fun n c => n * 10 + (c.toNat - 48)) 0
          let defaulted :=
            (schemeL = ("http".data) && port = 80) ||
            (schemeL = ("https".data) && port = 443)
          some (schemeL, hostL, if defaulted then none else some port)

/-- The grouping key of group_by_host (src/browser.rs): scheme://host[:port],
or the empty string when the URL does not parse. -/
def urlKey (s : Str) : Str :=
  match parseUrlModel s with
  | some (scheme, host, port) =>
    scheme ++ ("://".data) ++ host ++
      (match port with
       | some p => ':' :: Nat.toDigits 10 p
       | none => [])
  | none => []

/-- One step of group_by_host: push the URL onto its key's group, creating
the group at the end on first sight of the key (this is the HashMap entry
update plus the insertion-order vector of the source, fused). -/
def insertGroup : List (Str × List Str) → Str → Str → List (Str × List Str)
  | [], key, url => [(key, [url])]
  | (k, us) :: rest, key, url =>
    if k = key then (k, us ++ [url]) :: rest
    else (k, us) :: insertGroup rest key url

/-- group_by_host (src/browser.rs): group URLs by scheme://host[:port] in
first-seen key order, unparseable URLs under the empty key. -/
def group_by_host (urls : List Str) : List (Str × List Str) :=
  urls.foldl (fun acc u => insertGroup acc (urlKey u) u) []

/-! ## src/discovery/js_fetcher.rs: the fetch retry loop

One do_fetch call is modelled by an oracle giving the outcome of the i-th
request: the body on a 2xx response, the status of a non-2xx response (which
do_fetch converts into an HttpError carrying that status), or a transport
error (an HttpError without a status).  The duplicate-content set keyed by
SHA-256 of the body is modelled as a predicate on the body itself. -/

/-- The outcome of one do_fetch call. -/
inductive FetchOutcome where
  | ok (content : Str)
  | httpStatus (status : Nat)
  | transport
deriving DecidableEq, Repr

/-- What a fetch_one run did: the returned content (none on failure or
duplicate), the number of requests issued, and the backoff sleeps in
milliseconds, in order. -/
structure FetchTrace where
  result : Option Str
  requests : Nat
  sleeps : List Nat
deriving DecidableEq, Repr

/-- The while loop of JsFetcher::fetch_one (src/discovery/js_fetcher.rs).
The budget argument counts the loop iterations the guard
retries <= max_retries still admits; it is max_retries + 1 - retries, so
budget = 0 is exactly a failed guard. -/
def fetch_one_go (attempt : Nat → FetchOutcome) (seen : Str → Bool)
    (max_retries : Nat) : Nat → Nat → Nat → List Nat → FetchTrace
  | 0, _retries, reqs, sleeps =>
    { result := none, requests := reqs, sleeps := sleeps }
  | budget + 1, retries, reqs, sleeps =>
    match attempt reqs with
    | .ok content =>
      if seen content then { result := none, requests := reqs + 1, sleeps := sleeps }
      else { result := some content, requests := reqs + 1, sleeps := sleeps }
    | .httpStatus status =>
      if !is4xx status then
        -- retryable HTTP error
        if retries + 1 ≤ max_retries then
          fetch_one_go attempt seen max_retries budget (retries + 1) (reqs + 1)
            (sleeps ++ [500 * (retries + 1)])
        else { result := none, requests := reqs + 1, sleeps := sleeps }
      else
        -- 4xx client error: fail fast, no retry
        { result := none, requests := reqs + 1, sleeps := sleeps }
    | .transport =>
      if retries + 1 ≤ max_retries then
        fetch_one_go attempt seen max_retries budget (retries + 1) (reqs + 1)
          (sleeps ++ [500 * (retries + 1)])
      else { result := none, requests := reqs + 1, sleeps := sleeps }

/-- JsFetcher::fetch_one (src/discovery/js_fetcher.rs), as its request and
backoff trace. -/
def fetch_one (attempt : Nat → FetchOutcome) (seen : Str → Bool)
    (max_retries : Nat) : FetchTrace :=
  fetch_one_go attempt seen max_retries (max_retries + 1) 0 0 []

/-! ## src/scanner.rs: scan_multiple

The per-URL pipeline (browser capture plus process_captured_js) is abstracted
as an oracle from the target URL to the scan outcome; both paths of the
source set the result's target to the URL it scanned, and a failure is
materialized as a result holding the error string.  ScanResult's float
duration_secs field plays no role in any property and is omitted.
buffer_unordered(parallel) yields the host groups' results in an arbitrary
completion order; scan_multiple below therefore takes the completed group
list as an argument, which the theorems constrain to be a permutation of
group_by_host's output. -/

/-- ScanResult (src/types.rs) without the float duration field. -/
structure ScanResultM where
  target : Str
  js_files_count : Nat
  packages_found : Nat
  findings : List Finding
  errors : List Str
deriving DecidableEq, Repr

/-- The outcome of the per-URL pipeline, minus the target it is keyed by. -/
structure ScanBody where
  js_files_count : Nat
  packages_found : Nat
  findings : List Finding
  errors : List Str
deriving DecidableEq, Repr

/-- Run one per-URL scan: on success the pipeline's result carries the target;
on failure the error is materialized into the errors list
(Scanner::scan_multiple and Scanner::scan_host_group, src/scanner.rs). -/
def runScan (body : Str → Except Str ScanBody) (u : Str) : ScanResultM :=
  match body u with
  | .ok b =>
    { target := u, js_files_count := b.js_files_count,
      packages_found := b.packages_found, findings := b.findings,
      errors := b.errors }
  | .error e =>
    { target := u, js_files_count := 0, packages_found := 0, findings := [],
      errors := [e] }

/-- Scanner::scan_host_group (src/scanner.rs): one result per group URL, in
group order. -/
def scan_host_group (body : Str → Except Str ScanBody) (group : List Str) :
    List ScanResultM :=
  group.map (runScan body)

/-- HashMap::insert for the URL-to-index map: a later index for the same URL
replaces the earlier one. -/
def idxInsert : List (Str × Nat) → Str → Nat → List (Str × Nat)
  | [], k, v => [(k, v)]
  | (k0, v0) :: rest, k, v =>
    if k0 = k then (k0, v) :: rest else (k0, v0) :: idxInsert rest k v

/-- The url_to_index map of Scanner::scan_multiple. -/
def url_to_index (targets : List Str) : List (Str × Nat) :=
  (targets.enum).foldl (fun acc e => idxInsert acc e.2 e.1) []

/-- Lookup in the URL-to-index map. -/
def idxLookup (m : List (Str × Nat)) (k : Str) : Option Nat :=
  (m.find? (fun e => e.1 = k)).map (fun e => e.2)

/-- usize::MAX, the index given to a result whose target is not in the map. -/
def usizeMax : Nat := 2 ^ 64 - 1

/-- Scanner::scan_multiple (src/scanner.rs): single-target shortcut, host
grouping, flattening of the completed groups, and the stable re-sort by the
input index of each result's target. -/
def scan_multiple (body : Str → Except Str ScanBody) (targets : List Str)
    (completed : List (Str × List Str)) : List ScanResultM :=
  match targets with
  | [t] => [runScan body t]
  | _ =>
    let m := url_to_index targets
    let flat := (completed.map (fun g => scan_host_group body g.2)).flatten
    let indexed := flat.map (fun r => ((idxLookup m r.target).getD usizeMax, r))
    (List.insertionSort (fun a b : Nat × ScanResultM => a.1 ≤ b.1) indexed).map
      (fun e => e.2)

/-! ## Specification-side definitions

The definitions below transcribe the WORDING of the verified claims (the
specification), to be compared with the source-translated definitions above.
-/

/-- Spec, claim C1: the emission rule worded over the package's name —
ScopeNotClaimed always; NotFound only when the package name is unscoped;
Exists and Error always. -/
def specEmits (package : Package) (result : NpmCheckResult) : Bool :=
  match result with
  | .ScopeNotClaimed _ _ => true
  | .NotFound _ => !strStartsWith package.name ("@".data)
  | .Exists _ _ => true
  | .Error _ _ => true

/-- Spec, claim C2: the user probe proves the scope claimed — a 2xx JSON
reply with ok:true, a name field, or an _id field. -/
def specUserProvesClaimed (reply : HttpReply) : Bool :=
  match reply with
  | .resp status (some j) =>
    is2xx status &&
      (((jsonGet j ("ok".data)).bind jsonAsBool).getD false ||
       (jsonGet j ("name".data)).isSome || (jsonGet j ("_id".data)).isSome)
  | _ => false

/-- Spec, claim C2: the org probe proves the scope claimed — a 2xx JSON reply
without an error field. -/
def specOrgProvesClaimed (reply : HttpReply) : Bool :=
  match reply with
  | .resp status (some j) => is2xx status && (jsonGet j ("error".data)).isNone
  | _ => false

/-- Spec, claim C2: the search proves the scope claimed — a 2xx reply whose
objects[].package.name list has an entry starting with the scope followed by
a slash. -/
def specSearchProvesClaimed (scope : Str) (reply : HttpReply) : Bool :=
  match reply with
  | .resp status (some j) =>
    is2xx status &&
      (match parseSearchResponse j with
       | some names => names.any (fun nm => strStartsWith nm (scope ++ ('/' :: [])))
       | none => false)
  | _ => false

/-- Spec, claims C4/C10: the character class [a-z0-9_-] of the scope regex. -/
def scopeClassChar (c : Char) : Bool :=
  c.isLower || c.isDigit || c = '-' || c = '_'

/-- Spec, claims C4/C10: the character class [a-z0-9._-] of the name regex. -/
def nameClassChar (c : Char) : Bool :=
  c.isLower || c.isDigit || c = '-' || c = '_' || c = '.'

/-- A string matches CLASS+ : non-empty, every character in the class. -/
def matchesPlus (cls : Char → Bool) (s : Str) : Bool := !s.isEmpty && s.all cls

/-- Spec, claim C4 as stated: accept iff non-empty, at most 214 octets, not
beginning with a dot, a slash or (when unscoped) an underscore, not a Node
built-in (node: prefix stripped); scoped names decompose as scope/name-with-
rest with scope matching [a-z0-9_-]+ and name matching [a-z0-9._-]+ and are
truncated; otherwise the first slash-separated segment must match
[a-z0-9._-]+ and is the result. -/
def claimNormalize (s : Str) : Option Str :=
  if s.isEmpty then none
  else if utf8Len s > 214 then none
  else if strStartsWith s (".".data) || strStartsWith s ("/".data) then none
  else if is_node_builtin s then none
  else if strStartsWith s ("@".data) then
    match splitn3 s '/' with
    | scope :: nm :: _ =>
      if matchesPlus scopeClassChar (scope.drop 1) && matchesPlus nameClassChar nm
      then some (scope ++ '/' :: nm) else none
    | _ => none
  else if strStartsWith s ("_".data) then none
  else
    let first := splitFirst s '/'
    if matchesPlus nameClassChar first then some first else none

/-- Spec, claim C4 amended: the input is trimmed first; the 214-octet bound
applies to the scope and to the name component separately rather than to the
whole string; and the scoped name component, like an unscoped first segment,
must not begin with a dot or an underscore. -/
def amendedNormalize (s : Str) : Option Str :=
  let t := rustTrim s
  if t.isEmpty then none
  else if strStartsWith t (".".data) || strStartsWith t ("/".data) then none
  else if is_node_builtin t then none
  else if strStartsWith t ("@".data) then
    match splitn3 t '/' with
    | scope :: nm :: _ =>
      if (matchesPlus scopeClassChar (scope.drop 1) && utf8Len (scope.drop 1) ≤ 214) &&
         (matchesPlus nameClassChar nm && utf8Len nm ≤ 214 &&
          !strStartsWith nm (".".data) && !strStartsWith nm ("_".data))
      then some (scope ++ '/' :: nm) else none
    | _ => none
  else
    let first := splitFirst t '/'
    if matchesPlus nameClassChar first && utf8Len first ≤ 214 &&
       !strStartsWith first (".".data) && !strStartsWith first ("_".data)
    then some first else none

/-- Spec, claim C3: the dedup selection key — confidence first, then
extraction-method priority. -/
def dedupKeyLe (q p : Package) : Prop :=
  confRank q.confidence < confRank p.confidence ∨
  (confRank q.confidence = confRank p.confidence ∧
   extraction_priority q.extraction_method ≤ extraction_priority p.extraction_method)

/-- Spec, claim C3: the claimed method-priority ranking, worded as in the
claim: import-like methods above bundle-structure methods above text-mining
methods. -/
def specMethodRank : ExtractionMethod → Nat
  | .Import | .Require | .DynamicImport => 3
  | .SourceMap | .WebpackChunk => 2
  | .Comment | .ErrorMessage | .Deobfuscate => 1

/-- Spec, claim C3 as stated, at one candidate multiset: every record the
deduplication outputs is a maximum of its whole name group under the
(confidence, priority) order. -/
def claimDedupMaximal (packages : List Package) : Prop :=
  ∀ p ∈ deduplicate_packages packages, ∀ q ∈ packages,
    q.name = p.name → dedupKeyLe q p

/-- Spec, claim C3: the invariant of one by_name entry of the dedup fold over
a processed prefix of the candidates: the entry is keyed by its record's
name, the record is a non-skipped processed candidate, and it dominates every
non-skipped processed candidate of the same name. -/
def entryInv (processed : List Package) (e : Str × Package) : Prop :=
  e.2.name = e.1 ∧ e.2 ∈ processed ∧ should_skip_package e.2 = false ∧
  ∀ q ∈ processed, q.name = e.1 → should_skip_package q = false → dedupKeyLe q e.2

/-- Spec, claim C5: the names seen under a node_modules/ path of the sources
array. -/
def specNodeSeen (sources : List Str) : List Str :=
  sources.filterMap (fun source =>
    let path := stripWebpack source
    match strFind path ("node_modules/".data) with
    | some idx => extract_package_from_path_segment (byteDrop path (idx + 13))
    | none => none)

/-- Spec, claim C5: the names seen under a packages/ path (and no
node_modules/ path) of the sources array. -/
def specWorkspaceSeen (sources : List Str) : List Str :=
  sources.filterMap (fun source =>
    let path := stripWebpack source
    if strContains path ("node_modules/".data) then none
    else
      match strFind path ("packages/".data) with
      | some idx => extract_package_from_path_segment (byteDrop path (idx + 9))
      | none => none)

/-- Spec, claim C7: the group keys in first-seen order. -/
def firstSeenKeys (urls : List Str) : List Str :=
  (urls.map urlKey).foldl insertStr []

/-- Spec, claim C7: grouping as the claim words it — for each key in
first-seen order, the input URLs with that key, in input order. -/
def groupSpec (urls : List Str) : List (Str × List Str) :=
  (firstSeenKeys urls).map (fun k => (k, urls.filter (fun u => urlKey u = k)))

/-- Spec, claim C9: a failure outcome that the fetcher retries — any
non-2xx-status failure that is not a 4xx, and any transport error. -/
def retryableFailure : FetchOutcome → Bool
  | .ok _ => false
  | .httpStatus status => !is4xx status
  | .transport => true

/-! ## Helper lemmas -/

/-- Starting with a one-character string is having that head. -/
theorem strStartsWith_single {c : Char} {s : Str} :
    strStartsWith s [c] = true ↔ ∃ t, s = c :: t := by
  cases s with
  | nil => simp [strStartsWith, List.isPrefixOf]
  | cons a t =>
    simp only [strStartsWith, List.isPrefixOf, List.isPrefixOf_nil_left,
      Bool.and_true, beq_iff_eq]
    constructor
    · intro h; exact ⟨t, by rw [h]⟩
    · rintro ⟨t', ht⟩; cases ht; rfl

/-! ## Claim C6 -/

/-- Claim C6: with no content or source-URL context, the master
false-positive filter rejects card-back, disclosure--, @selectedprodcount/g,
@playwri_cc9cc6913152bcb3157e8f498f9e38e0, 0x158d0, icjsn, node_modules,
@auth_password_policy/password_policy and @web_tour/tour_service, and accepts
lodash, react, @babel/core, @getbento/website-components and @playxp/style. -/
theorem C6_master_filter_sample :
    ([("card-back".data), ("disclosure--".data), ("@selectedprodcount/g".data),
      ("@playwri_cc9cc6913152bcb3157e8f498f9e38e0".data), ("0x158d0".data),
      ("icjsn".data), ("node_modules".data),
      ("@auth_password_policy/password_policy".data),
      ("@web_tour/tour_service".data)].all
        (fun n => should_filter_package n none none) = true) ∧
    ([("lodash".data), ("react".data), ("@babel/core".data),
      ("@getbento/website-components".data), ("@playxp/style".data)].all
        (fun n => !should_filter_package n none none) = true) := by
  constructor <;> decide

/-! ## Claim C1 -/

/-- Claim C1: over the pairs the per-URL scan driver processes (whose result
name is the package name), a Finding is appended exactly for the pairs the
emission rule admits: ScopeNotClaimed always, NotFound only for unscoped
names, Exists and Error always — in particular a scoped NotFound never
yields a Finding. -/
theorem C1_finding_emission (pairs : List (Package × NpmCheckResult))
    (h : ∀ pr ∈ pairs, npmResultName pr.2 = pr.1.name) :
    buildFindings pairs =
      (pairs.filter (fun pr => specEmits pr.1 pr.2)).map
        (fun pr => create_finding pr.1 pr.2) := by
  induction pairs with
  | nil => rfl
  | cons pr rest ih =>
    have hpr : npmResultName pr.2 = pr.1.name := h pr (List.mem_cons_self pr rest)
    have hrest := ih (fun x hx => h x (List.mem_cons_of_mem pr hx))
    obtain ⟨p, r⟩ := pr
    have hrep : should_report r = specEmits p r := by
      cases r with
      | NotFound name =>
        simp only [npmResultName] at hpr
        simp [should_report, specEmits, hpr]
      | Exists name v => rfl
      | ScopeNotClaimed scope name => rfl
      | Error name e => rfl
    show (if should_report (create_finding p r).npm_result then
            create_finding p r :: buildFindings rest
          else buildFindings rest) = _
    have hnp : (create_finding p r).npm_result = r := rfl
    rw [hnp, hrep, List.filter_cons]
    by_cases hc : specEmits p r = true
    · simp [hc, hrest]
    · simp [Bool.not_eq_true] at hc
      simp [hc, hrest]

/-- Witness for C1 at concrete pairs: a scoped NotFound is suppressed, an
unscoped NotFound is kept. -/
theorem C1_finding_emission_witness :
    buildFindings
      [({ name := ("@co/utils".data), extraction_method := ExtractionMethod.Import,
          source_url := ("a.js".data), confidence := Confidence.High },
        NpmCheckResult.NotFound ("@co/utils".data)),
       ({ name := ("leftpad-x".data), extraction_method := ExtractionMethod.Import,
          source_url := ("a.js".data), confidence := Confidence.High },
        NpmCheckResult.NotFound ("leftpad-x".data))] =
      [create_finding
        { name := ("leftpad-x".data), extraction_method := ExtractionMethod.Import,
          source_url := ("a.js".data), confidence := Confidence.High }
        (NpmCheckResult.NotFound ("leftpad-x".data))] := by
  have h := C1_finding_emission
    [({ name := ("@co/utils".data), extraction_method := ExtractionMethod.Import,
        source_url := ("a.js".data), confidence := Confidence.High },
      NpmCheckResult.NotFound ("@co/utils".data)),
     ({ name := ("leftpad-x".data), extraction_method := ExtractionMethod.Import,
        source_url := ("a.js".data), confidence := Confidence.High },
      NpmCheckResult.NotFound ("leftpad-x".data))]
    (by decide)
  rw [h]
  decide

/-! ## Claim C2 -/

/-- Claim C2: on a scoped name whose package GET is a 404, the checker runs
the ownership cascade: it returns NotFound exactly when the user probe, the
org probe or the scope search proves the scope claimed, and ScopeNotClaimed
with the scope and name otherwise; non-2xx replies, transport errors and
unparseable bodies never prove a claim and never stop the cascade; and a
ScopeNotClaimed result always yields a Critical finding. -/
theorem C2_scope_cascade (package_name : Str) (pkgBody : Option Json)
    (userReply orgReply searchReply : HttpReply)
    (h : strStartsWith package_name ("@".data) = true) :
    (check_scoped_package package_name (HttpReply.resp 404 pkgBody)
        userReply orgReply searchReply =
      if specUserProvesClaimed userReply || specOrgProvesClaimed orgReply ||
         specSearchProvesClaimed (splitFirst package_name '/') searchReply
      then NpmCheckResult.NotFound package_name
      else NpmCheckResult.ScopeNotClaimed (splitFirst package_name '/') package_name) ∧
    ∀ pkg : Package,
      (create_finding pkg
        (NpmCheckResult.ScopeNotClaimed (splitFirst package_name '/') package_name)).severity
        = Severity.Critical := by
  refine ⟨?_, fun pkg => rfl⟩
  obtain ⟨t, rfl⟩ := strStartsWith_single.mp h
  have hscope : splitFirst ('@' :: t) '/' = '@' :: splitFirst t '/' := by
    simp [splitFirst, List.takeWhile_cons]
  have hguard : ((splitFirst ('@' :: t) '/').isEmpty ||
      !strStartsWith (splitFirst ('@' :: t) '/') ("@".data)) = false := by
    rw [hscope]
    simp [List.isEmpty, strStartsWith, List.isPrefixOf]
  show check_scope_ownership ('@' :: t) userReply orgReply searchReply = _
  unfold check_scope_ownership
  simp only [hguard, Bool.false_eq_true, if_false]
  unfold specUserProvesClaimed specOrgProvesClaimed specSearchProvesClaimed
  by_cases hu : (match userReply with
    | HttpReply.resp status (some j) =>
      is2xx status &&
        (((jsonGet j ("ok".data)).bind jsonAsBool).getD false ||
         (jsonGet j ("name".data)).isSome || (jsonGet j ("_id".data)).isSome)
    | _ => false) = true
  · simp [hu]
  · simp only [Bool.not_eq_true] at hu
    by_cases ho : (match orgReply with
      | HttpReply.resp status (some j) => is2xx status && (jsonGet j ("error".data)).isNone
      | _ => false) = true
    · simp [hu, ho]
    · simp only [Bool.not_eq_true] at ho
      by_cases hs : (match searchReply with
        | HttpReply.resp status (some j) =>
          is2xx status &&
            (match parseSearchResponse j with
             | some names =>
               names.any (fun nm =>
                 strStartsWith nm (splitFirst ('@' :: t) '/' ++ ('/' :: [])))
             | none => false)
        | _ => false) = true
      · simp [hu, ho, hs]
      · simp only [Bool.not_eq_true] at hs
        simp [hu, ho, hs]

/-- Witness for C2 at the S4 oracle: package 404, user 404, org body an error
object, search returning only an @acme-other package — the result is
ScopeNotClaimed of @acme, and its finding is Critical. -/
theorem C2_scope_cascade_witness :
    check_scoped_package ("@acme/foo".data) (HttpReply.resp 404 none)
        (HttpReply.resp 404 none)
        (HttpReply.resp 200 (some (Json.obj
          [(("error".data), Json.str ("Scope not found".data))])))
        (HttpReply.resp 200 (some (Json.obj
          [(("objects".data), Json.arr [Json.obj
            [(("package".data), Json.obj
              [(("name".data), Json.str ("@acme-other/thing".data))])]])])))
      = NpmCheckResult.ScopeNotClaimed ("@acme".data) ("@acme/foo".data) ∧
    (create_finding
      { name := ("@acme/foo".data), extraction_method := ExtractionMethod.Import,
        source_url := ("app.js".data), confidence := Confidence.High }
      (NpmCheckResult.ScopeNotClaimed ("@acme".data) ("@acme/foo".data))).severity
      = Severity.Critical := by
  have h := C2_scope_cascade ("@acme/foo".data) none
    (HttpReply.resp 404 none)
    (HttpReply.resp 200 (some (Json.obj
      [(("error".data), Json.str ("Scope not found".data))])))
    (HttpReply.resp 200 (some (Json.obj
      [(("objects".data), Json.arr [Json.obj
        [(("package".data), Json.obj
          [(("name".data), Json.str ("@acme-other/thing".data))])]])])))
    (by decide)
  constructor
  · rw [h.1]
    norm_num [specUserProvesClaimed, specOrgProvesClaimed, specSearchProvesClaimed,
      is2xx, jsonGet, parseSearchResponse, parseSearchObject, parseReqString,
      parseOptString, jsonAsBool]
    decide
  · exact h.2 _

/-! ## Claim C9 -/

/-- When every attempt fails retryably, the loop runs its full retry budget:
one request per admissible iteration and a 500 ms x retry-number sleep before
each retry. -/
theorem fetch_go_all_retryable (attempt : Nat → FetchOutcome) (seen : Str → Bool)
    (max_retries : Nat) (h : ∀ i, retryableFailure (attempt i) = true) :
    ∀ budget retries reqs sleeps,
      budget = max_retries + 1 - retries → retries ≤ max_retries →
      fetch_one_go attempt seen max_retries budget retries reqs sleeps =
        { result := none, requests := reqs + (max_retries - retries) + 1,
          sleeps := sleeps ++ (List.range (max_retries - retries)).map
            (fun i => 500 * (retries + 1 + i)) } := by
  intro budget
  induction budget with
  | zero =>
    intro retries reqs sleeps hb hr
    exfalso
    omega
  | succ b ihb =>
    intro retries reqs sleeps hb hr
    have hra := h reqs
    have hstep : ∀ goNext :
        (fetch_one_go attempt seen max_retries (b + 1) retries reqs sleeps =
          if retries + 1 ≤ max_retries then
            fetch_one_go attempt seen max_retries b (retries + 1) (reqs + 1)
              (sleeps ++ [500 * (retries + 1)])
          else { result := none, requests := reqs + 1, sleeps := sleeps }),
        fetch_one_go attempt seen max_retries (b + 1) retries reqs sleeps =
          { result := none, requests := reqs + (max_retries - retries) + 1,
            sleeps := sleeps ++ (List.range (max_retries - retries)).map
              (fun i => 500 * (retries + 1 + i)) } := by
      intro goNext
      rw [goNext]
      by_cases hle : retries + 1 ≤ max_retries
      · rw [if_pos hle, ihb (retries + 1) (reqs + 1)
          (sleeps ++ [500 * (retries + 1)]) (by omega) hle]
        have hm : max_retries - retries = (max_retries - (retries + 1)) + 1 := by omega
        have hreq : reqs + 1 + (max_retries - (retries + 1)) + 1 =
            reqs + (max_retries - retries) + 1 := by omega
        have hsl : (sleeps ++ [500 * (retries + 1)]) ++
            (List.range (max_retries - (retries + 1))).map
              (fun i => 500 * (retries + 1 + 1 + i)) =
            sleeps ++ (List.range (max_retries - retries)).map
              (fun i => 500 * (retries + 1 + i)) := by
          rw [hm, List.range_succ_eq_map, List.append_assoc]
          simp only [List.map_cons, List.map_map, List.singleton_append,
            Nat.add_zero, Function.comp_def]
          have hfun : (fun i => 500 * (retries + 1 + 1 + i)) =
              (fun i => 500 * (retries + 1 + Nat.succ i)) :=
            funext fun i => by omega
          rw [hfun]
        rw [hreq, hsl]
      · rw [if_neg hle]
        have hm : max_retries - retries = 0 := by omega
        simp [hm]
    cases ha : attempt reqs with
    | ok content =>
      rw [ha] at hra
      simp [retryableFailure] at hra
    | httpStatus status =>
      rw [ha] at hra
      simp only [retryableFailure] at hra
      apply hstep
      simp only [fetch_one_go]
      rw [ha]
      simp [hra]
    | transport =>
      apply hstep
      simp only [fetch_one_go]
      rw [ha]

/-- Claim C9: a first response with a 4xx status makes exactly one request,
with no retry and no sleep; when every outcome is a retryable failure (such
as HTTP 500 or a transport error) the fetcher makes 1 + max_retries requests
with linear backoff sleeps of 500 ms x retry-number between attempts. -/
theorem C9_fetch_retry (max_retries : Nat) (attempt : Nat → FetchOutcome)
    (seen : Str → Bool) :
    (∀ status, is4xx status = true →
      attempt 0 = FetchOutcome.httpStatus status →
      fetch_one attempt seen max_retries =
        { result := none, requests := 1, sleeps := [] }) ∧
    ((∀ i, retryableFailure (attempt i) = true) →
      fetch_one attempt seen max_retries =
        { result := none, requests := 1 + max_retries,
          sleeps := (List.range max_retries).map (fun i => 500 * (i + 1)) }) := by
  constructor
  · intro status h4 ha
    show fetch_one_go attempt seen max_retries (max_retries + 1) 0 0 [] = _
    rw [fetch_one_go, ha]
    simp [h4]
  · intro h
    have hrun := fetch_go_all_retryable attempt seen max_retries h
      (max_retries + 1) 0 0 [] (by omega) (by omega)
    rw [fetch_one, hrun]
    have hreq : 0 + (max_retries - 0) + 1 = 1 + max_retries := by omega
    have hfun : (fun i => 500 * (0 + 1 + i)) = (fun i => 500 * (i + 1)) :=
      funext fun i => by omega
    rw [hreq]
    simp only [Nat.sub_zero, List.nil_append, hfun]

/-- Witness for C9: with max_retries = 3, a constant-404 oracle makes one
request with no sleeps, and a constant-500 oracle makes four requests with
500, 1000, 1500 ms sleeps. -/
theorem C9_fetch_retry_witness :
    fetch_one (fun _ => FetchOutcome.httpStatus 404) (fun _ => false) 3 =
      { result := none, requests := 1, sleeps := [] } ∧
    fetch_one (fun _ => FetchOutcome.httpStatus 500) (fun _ => false) 3 =
      { result := none, requests := 4, sleeps := [500, 1000, 1500] } := by
  constructor
  · exact (C9_fetch_retry 3 (fun _ => FetchOutcome.httpStatus 404)
      (fun _ => false)).1 404 (by decide) rfl
  · exact ((C9_fetch_retry 3 (fun _ => FetchOutcome.httpStatus 500)
      (fun _ => false)).2 (fun i => by decide)).trans (by decide)

/-! ## Claims C4 and C10: normalization lemmas -/

/-- The numeric ranges a name-class character can lie in. -/
theorem nameClass_toNat {c : Char} (h : nameClassChar c = true) :
    (97 ≤ c.toNat ∧ c.toNat ≤ 122) ∨ (48 ≤ c.toNat ∧ c.toNat ≤ 57) ∨
    c.toNat = 45 ∨ c.toNat = 95 ∨ c.toNat = 46 := by
  unfold nameClassChar Char.isLower Char.isDigit at h
  simp only [Bool.or_eq_true, Bool.and_eq_true, decide_eq_true_eq] at h
  rcases h with ((((⟨h1, h2⟩ | ⟨h1, h2⟩) | h) | h) | h)
  · exact Or.inl ⟨h1, h2⟩
  · exact Or.inr (Or.inl ⟨h1, h2⟩)
  · subst h; right; right; left; rfl
  · subst h; right; right; right; left; rfl
  · subst h; right; right; right; right; rfl

/-- Every scope-class character is a name-class character. -/
theorem scopeClass_sub {c : Char} (h : scopeClassChar c = true) :
    nameClassChar c = true := by
  unfold scopeClassChar at h
  unfold nameClassChar
  simp only [Bool.or_eq_true] at h ⊢
  tauto

/-- Name-class characters are not Rust whitespace. -/
theorem nameClass_not_ws {c : Char} (h : nameClassChar c = true) :
    isRustWhitespace c = false := by
  have hn := nameClass_toNat h
  by_contra hws
  simp only [Bool.not_eq_false] at hws
  unfold isRustWhitespace at hws
  simp only [Bool.or_eq_true, Bool.and_eq_true, decide_eq_true_eq] at hws
  omega

/-- Name-class characters are neither a slash nor an at-sign nor a dot-free
specials: the inequalities used by the idempotence argument. -/
theorem nameClass_ne_slash {c : Char} (h : nameClassChar c = true) : c ≠ '/' := by
  have hn := nameClass_toNat h
  intro he
  subst he
  rw [show ('/').toNat = 47 from rfl] at hn
  omega

/-- Name-class characters are not the at-sign. -/
theorem nameClass_ne_at {c : Char} (h : nameClassChar c = true) : c ≠ '@' := by
  have hn := nameClass_toNat h
  intro he
  subst he
  rw [show ('@').toNat = 64 from rfl] at hn
  omega

/-- dropWhile is the identity when no element satisfies the predicate. -/
theorem dropWhile_eq_self_of {p : Char → Bool} {l : Str}
    (h : ∀ c ∈ l, p c = false) : l.dropWhile p = l := by
  cases l with
  | nil => rfl
  | cons a t =>
    rw [List.dropWhile_cons]
    simp [h a (List.mem_cons_self a t)]

/-- takeWhile is the identity when every element satisfies the predicate. -/
theorem takeWhile_eq_self_of {p : Char → Bool} {l : Str}
    (h : ∀ c ∈ l, p c = true) : l.takeWhile p = l := by
  induction l with
  | nil => rfl
  | cons a t ih =>
    rw [List.takeWhile_cons]
    simp only [h a (List.mem_cons_self a t), if_true]
    rw [ih (fun c hc => h c (List.mem_cons_of_mem a hc))]

/-- Trimming is the identity on whitespace-free strings. -/
theorem rustTrim_eq_self {l : Str} (h : ∀ c ∈ l, isRustWhitespace c = false) :
    rustTrim l = l := by
  unfold rustTrim
  rw [dropWhile_eq_self_of h,
    dropWhile_eq_self_of (fun c hc => h c (List.mem_reverse.mp hc)),
    List.reverse_reverse]

/-- splitOnce finds nothing when the separator does not occur. -/
theorem splitOnce_eq_none {l : Str} {sep : Char} (h : ∀ c ∈ l, c ≠ sep) :
    splitOnce l sep = none := by
  induction l with
  | nil => rfl
  | cons a t ih =>
    unfold splitOnce
    rw [if_neg (h a (List.mem_cons_self a t))]
    rw [ih (fun c hc => h c (List.mem_cons_of_mem a hc))]
    rfl

/-- splitOnce splits at the first separator. -/
theorem splitOnce_append {a b : Str} {sep : Char} (h : ∀ c ∈ a, c ≠ sep) :
    splitOnce (a ++ sep :: b) sep = some (a, b) := by
  induction a with
  | nil => simp [splitOnce]
  | cons x t ih =>
    show splitOnce (x :: (t ++ sep :: b)) sep = some (x :: t, b)
    unfold splitOnce
    rw [if_neg (h x (List.mem_cons_self x t)),
      ih (fun c hc => h c (List.mem_cons_of_mem x hc))]
    rfl

/-- is_valid_package_name, re-expressed in the claim's vocabulary: a
non-empty [a-z0-9._-]+ string of at most 214 octets that does not begin with
a dot or an underscore. -/
theorem valid_pkg_eq (p : Str) :
    is_valid_package_name p =
      (matchesPlus nameClassChar p && decide (utf8Len p ≤ 214) &&
       !strStartsWith p (".".data) && !strStartsWith p ("_".data)) := by
  unfold is_valid_package_name matchesPlus nameClassChar
  by_cases h1 : p.isEmpty
  · simp [h1]
  · by_cases h2 : utf8Len p > 214
    · have hle : ¬(utf8Len p ≤ 214) := by omega
      simp [h1, h2, hle]
    · have hle : utf8Len p ≤ 214 := by omega
      by_cases h3 : strStartsWith p (".".data)
      · simp [h1, h2, h3, hle]
      · by_cases h4 : strStartsWith p ("_".data)
        · simp [h1, h2, h3, h4, hle]
        · simp [h1, h2, h3, h4, hle]

/-- is_valid_scope on a string that starts with an at-sign, re-expressed in
the claim's vocabulary: the rest is a non-empty [a-z0-9_-]+ string of at
most 214 octets. -/
theorem valid_scope_eq (sc : Str) (hsc : strStartsWith sc ("@".data) = true) :
    is_valid_scope sc =
      (matchesPlus scopeClassChar (sc.drop 1) && decide (utf8Len (sc.drop 1) ≤ 214)) := by
  unfold is_valid_scope matchesPlus scopeClassChar
  rw [hsc]
  simp only [List.drop_one]
  by_cases h1 : (sc.tail).isEmpty
  · simp [h1]
  · by_cases h2 : utf8Len sc.tail > 214
    · have hle : ¬(utf8Len sc.tail ≤ 214) := by omega
      simp [h1, h2, hle]
    · have hle : utf8Len sc.tail ≤ 214 := by omega
      simp [h1, h2, hle]

/-- splitn3 on a string whose non-separator head is c yields a first part
headed by c. -/
theorem splitn3_cons_ne (c : Char) (hc : c ≠ '/') (t : Str) :
    ∃ lead rest, splitn3 (c :: t) '/' = (c :: lead) :: rest := by
  have hso : splitOnce (c :: t) '/' =
      (splitOnce t '/').map (fun p => (c :: p.1, p.2)) := by
    show (if c = '/' then some ([], t)
          else (splitOnce t '/').map (fun p => (c :: p.1, p.2))) = _
    rw [if_neg hc]
  cases ho : splitOnce t '/' with
  | none =>
    refine ⟨t, [], ?_⟩
    simp [splitn3, hso, ho]
  | some p =>
    cases hq : splitOnce p.2 '/' with
    | none =>
      refine ⟨p.1, [p.2], ?_⟩
      simp [splitn3, hso, ho, hq]
    | some q =>
      refine ⟨p.1, [q.1, q.2], ?_⟩
      simp [splitn3, hso, ho, hq]

/-! ## Claim C4 -/

/-- Counterexample to claim C4 as stated: the code rejects a scoped name
whose name part begins with an underscore, while the claimed rule (name part
matching [a-z0-9._-]+, underscore only barred on unscoped names) accepts it. -/
theorem C4_counterexample :
    claimNormalize ("@a/_b".data) = some ("@a/_b".data) ∧
    normalize_package_name ("@a/_b".data) = none := by
  constructor <;> decide

/-- Claim C4 amended: normalization accepts exactly the trimmed strings that
are non-empty, do not begin with a dot or slash, are not Node built-ins
(node: prefix stripped); a scoped input must split as @scope / name [/ rest]
with scope a [a-z0-9_-]+ string of at most 214 octets and name a
[a-z0-9._-]+ string of at most 214 octets not beginning with a dot or an
underscore, giving @scope/name; an unscoped input's first slash-separated
segment must be a [a-z0-9._-]+ string of at most 214 octets not beginning
with a dot or an underscore, and is the result. -/
theorem C4_amended_normalization (s : Str) :
    normalize_package_name s = amendedNormalize s := by
  unfold normalize_package_name amendedNormalize
  by_cases h1 : (rustTrim s).isEmpty
  · simp [h1]
  · by_cases h2 : (strStartsWith (rustTrim s) (".".data) ||
        strStartsWith (rustTrim s) ("/".data)) = true
    · simp [h1, h2]
    · by_cases h3 : is_node_builtin (rustTrim s)
      · simp [h1, h2, h3]
      · by_cases h4 : strStartsWith (rustTrim s) ("@".data)
        · rw [if_neg h1, if_neg h1, if_neg h2, if_neg h2, if_neg h3, if_neg h3,
            if_pos h4, if_pos h4]
          obtain ⟨t', ht⟩ := strStartsWith_single.mp h4
          cases hsp2 : splitn3 (rustTrim s) '/' with
          | nil => rfl
          | cons a rest =>
            cases rest with
            | nil => rfl
            | cons b rest2 =>
              rw [ht] at hsp2
              obtain ⟨lead, grest, hsp⟩ := splitn3_cons_ne '@' (by decide) t'
              rw [hsp2] at hsp
              injection hsp with hhead _htail
              have ha : strStartsWith a ("@".data) = true := by
                rw [hhead]
                exact strStartsWith_single.mpr ⟨lead, rfl⟩
              show (if !is_valid_scope a then none
                    else if !is_valid_package_name b then none
                    else some (a ++ '/' :: b)) =
                  (if (matchesPlus scopeClassChar (a.drop 1) &&
                        utf8Len (a.drop 1) ≤ 214) &&
                      (matchesPlus nameClassChar b && utf8Len b ≤ 214 &&
                       !strStartsWith b (".".data) && !strStartsWith b ("_".data))
                   then some (a ++ '/' :: b) else none)
              rw [← valid_scope_eq a ha, ← valid_pkg_eq b]
              cases hvs : is_valid_scope a <;>
                cases hvp : is_valid_package_name b <;> simp [hvs, hvp]
        · rw [if_neg h1, if_neg h1, if_neg h2, if_neg h2, if_neg h3, if_neg h3,
            if_neg h4, if_neg h4]
          show (if !is_valid_package_name (splitFirst (rustTrim s) '/') then none
                else some (splitFirst (rustTrim s) '/')) =
              (if matchesPlus nameClassChar (splitFirst (rustTrim s) '/') &&
                  utf8Len (splitFirst (rustTrim s) '/') ≤ 214 &&
                  !strStartsWith (splitFirst (rustTrim s) '/') (".".data) &&
                  !strStartsWith (splitFirst (rustTrim s) '/') ("_".data)
               then some (splitFirst (rustTrim s) '/') else none)
          rw [← valid_pkg_eq (splitFirst (rustTrim s) '/')]
          cases hvp : is_valid_package_name (splitFirst (rustTrim s) '/') <;>
            simp [hvp]

/-! ## Claim C10 -/

/-- Starting with a one-character string is a head comparison. -/
theorem strStartsWith_cons_single (a : Char) (t : Str) (c : Char) :
    strStartsWith (a :: t) [c] = (c == a) := by
  simp [strStartsWith, List.isPrefixOf]

/-- A string none of whose characters is c does not start with c. -/
theorem strStartsWith_eq_false_of_ne {p : Str} {c : Char}
    (h : ∀ x ∈ p, x ≠ c) : strStartsWith p [c] = false := by
  cases p with
  | nil => rfl
  | cons a t =>
    rw [strStartsWith_cons_single]
    simp only [beq_eq_false_iff_ne, ne_eq]
    intro he
    exact h a (List.mem_cons_self a t) (by rw [he])

/-- The component facts packed in is_valid_package_name. -/
theorem valid_pkg_facts {p : Str} (hv : is_valid_package_name p = true) :
    p ≠ [] ∧ (∀ c ∈ p, nameClassChar c = true) ∧ utf8Len p ≤ 214 ∧
    strStartsWith p (".".data) = false ∧ strStartsWith p ("_".data) = false := by
  rw [valid_pkg_eq] at hv
  simp only [matchesPlus, Bool.and_eq_true, Bool.not_eq_true',
    List.isEmpty_eq_false, decide_eq_true_eq, List.all_eq_true, ne_eq] at hv
  exact ⟨hv.1.1.1.1, hv.1.1.1.2, hv.1.1.2, hv.1.2, hv.2⟩

/-- Normalization accepts an already-valid unscoped name that is not a Node
built-in, and returns it unchanged. -/
theorem normalize_of_valid_unscoped (p : Str)
    (hv : is_valid_package_name p = true) (hb : is_node_builtin p = false) :
    normalize_package_name p = some p := by
  obtain ⟨hne, hall, _hlen, hdot, hund⟩ := valid_pkg_facts hv
  have htrim : rustTrim p = p :=
    rustTrim_eq_self (fun c hc => nameClass_not_ws (hall c hc))
  have hslash : strStartsWith p ("/".data) = false :=
    strStartsWith_eq_false_of_ne (fun x hx => nameClass_ne_slash (hall x hx))
  have hat : strStartsWith p ("@".data) = false :=
    strStartsWith_eq_false_of_ne (fun x hx => nameClass_ne_at (hall x hx))
  have hsplit : splitFirst p '/' = p := by
    unfold splitFirst
    exact takeWhile_eq_self_of
      (fun c hc => by simp [nameClass_ne_slash (hall c hc)])
  unfold normalize_package_name
  rw [htrim]
  rw [if_neg (by simp [hne])]
  rw [if_neg (by simp [hdot, hslash])]
  rw [if_neg (by simp [hb])]
  rw [if_neg (by simp [hat])]
  rw [hsplit]
  rw [if_neg (by simp [hv])]

/-- No Node built-in name begins with an at-sign. -/
theorem builtin_head_not_at : ∀ b ∈ nodeBuiltins, b.head? ≠ some '@' := by decide

/-- A scoped name is never a Node built-in. -/
theorem builtin_false_of_at {body : Str} :
    is_node_builtin ('@' :: body) = false := by
  unfold is_node_builtin
  have hpre : strStartsWith ('@' :: body) ("node:".data) = false := by
    simp [strStartsWith, List.isPrefixOf]
  rw [hpre]
  simp only [Bool.false_eq_true, if_false]
  by_contra hcon
  simp only [Bool.not_eq_false] at hcon
  have hmem : ('@' :: body) ∈ nodeBuiltins := by simpa using hcon
  exact builtin_head_not_at _ hmem rfl

/-- The component facts packed in is_valid_scope. -/
theorem valid_scope_facts {sc : Str} (hv : is_valid_scope sc = true) :
    ∃ body, sc = '@' :: body ∧ body ≠ [] ∧
      (∀ c ∈ body, scopeClassChar c = true) ∧ utf8Len body ≤ 214 := by
  have hat : strStartsWith sc ("@".data) = true := by
    by_contra hno
    simp only [Bool.not_eq_true] at hno
    unfold is_valid_scope at hv
    rw [hno] at hv
    simp at hv
  obtain ⟨body, rfl⟩ := strStartsWith_single.mp hat
  refine ⟨body, rfl, ?_⟩
  rw [valid_scope_eq _ hat] at hv
  simp only [matchesPlus, Bool.and_eq_true, Bool.not_eq_true',
    List.isEmpty_eq_false, decide_eq_true_eq, List.all_eq_true,
    List.drop_succ_cons, List.drop_zero] at hv
  exact ⟨hv.1.1, hv.1.2, hv.2⟩

/-- Normalization accepts an already-normalized scoped name scope/pkg and
returns it unchanged. -/
theorem normalize_of_valid_scoped (scope pkg : Str)
    (hs : is_valid_scope scope = true) (hp : is_valid_package_name pkg = true) :
    normalize_package_name (scope ++ '/' :: pkg) = some (scope ++ '/' :: pkg) := by
  obtain ⟨body, rfl, _hbne, hball, _hblen⟩ := valid_scope_facts hs
  obtain ⟨_hpne, hpall, _hplen, _hpdot, _hpund⟩ := valid_pkg_facts hp
  have hnoslash : ∀ c ∈ ('@' :: body), c ≠ '/' := by
    intro c hc
    rcases List.mem_cons.mp hc with rfl | hcb
    · decide
    · exact nameClass_ne_slash (scopeClass_sub (hball c hcb))
  have htrim : rustTrim (('@' :: body) ++ '/' :: pkg) = ('@' :: body) ++ '/' :: pkg := by
    apply rustTrim_eq_self
    intro c hc
    rcases List.mem_append.mp hc with hc1 | hc2
    · rcases List.mem_cons.mp hc1 with rfl | hcb
      · decide
      · exact nameClass_not_ws (scopeClass_sub (hball c hcb))
    · rcases List.mem_cons.mp hc2 with rfl | hcp
      · decide
      · exact nameClass_not_ws (hpall c hcp)
  have hsplit : splitn3 (('@' :: body) ++ '/' :: pkg) '/' = [('@' :: body), pkg] := by
    unfold splitn3
    rw [splitOnce_append hnoslash]
    show (match splitOnce pkg '/' with
          | none => [('@' :: body), pkg]
          | some (b, rest2) => [('@' :: body), b, rest2]) = _
    rw [splitOnce_eq_none (fun c hc => nameClass_ne_slash (hpall c hc))]
  unfold normalize_package_name
  rw [htrim]
  rw [if_neg (by simp)]
  rw [if_neg (by simp [List.cons_append, strStartsWith_cons_single])]
  rw [if_neg (by rw [List.cons_append, builtin_false_of_at]; simp)]
  rw [if_pos (by rw [List.cons_append]; exact strStartsWith_single.mpr ⟨_, rfl⟩)]
  rw [hsplit]
  show (if !is_valid_scope ('@' :: body) then none
        else if !is_valid_package_name pkg then none
        else some (('@' :: body) ++ '/' :: pkg)) =
      some (('@' :: body) ++ '/' :: pkg)
  rw [if_neg (by simp [hs]), if_neg (by simp [hp])]

/-- Counterexample to claim C10 as stated: first-segment truncation can
produce a Node built-in name, which normalization itself rejects. -/
theorem C10_counterexample :
    normalize_package_name ("fs/promises".data) = some ("fs".data) ∧
    normalize_package_name ("fs".data) = none := by
  constructor <;> decide

/-- Claim C10 amended: normalization is idempotent on every accepted result
that is not itself a Node built-in name — if normalize(s) = Some(r) and r is
not a built-in, then normalize(r) = Some(r).  (The exception is forced by
first-segment truncation: an input such as fs/subpath normalizes to fs,
which normalization rejects as a built-in.) -/
theorem C10_idempotent_unless_builtin (s r : Str)
    (h : normalize_package_name s = some r) (hb : is_node_builtin r = false) :
    normalize_package_name r = some r := by
  simp only [normalize_package_name] at h
  split at h
  · simp at h
  · split at h
    · simp at h
    · split at h
      · simp at h
      · split at h
        · -- scoped input
          split at h
          · rename_i scope pkg tail _heq
            split at h
            · simp at h
            · split at h
              · simp at h
              · rename_i hns hnp
                simp only [Bool.not_eq_true', Bool.not_eq_false] at hns hnp
                have hr : scope ++ '/' :: pkg = r := by
                  simpa using h
                rw [← hr]
                exact normalize_of_valid_scoped scope pkg hns hnp
          · simp at h
        · -- unscoped input
          split at h
          · simp at h
          · rename_i hnv
            simp only [Bool.not_eq_true', Bool.not_eq_false] at hnv
            have hr : splitFirst (rustTrim s) '/' = r := by
              simpa using h
            rw [← hr]
            exact normalize_of_valid_unscoped _ hnv (hr ▸ hb)

/-- Witness for C10 at a concrete input: lodash/fp normalizes to lodash,
which renormalizes to itself. -/
theorem C10_idempotent_witness :
    normalize_package_name ("lodash".data) = some ("lodash".data) := by
  have h := C10_idempotent_unless_builtin ("lodash/fp".data) ("lodash".data)
    (by decide) (by decide)
  exact h

/-! ## Claim C7 -/

/-- Membership after set insertion. -/
theorem insertStr_mem {s : List Str} {x y : Str} :
    y ∈ insertStr s x ↔ y ∈ s ∨ y = x := by
  unfold insertStr
  split
  · rename_i hc
    simp only [List.contains_iff_exists_mem_beq, beq_iff_eq] at hc
    obtain ⟨z, hz, rfl⟩ := hc
    constructor
    · exact Or.inl
    · rintro (hy | rfl)
      · exact hy
      · exact hz
  · simp

/-- Set insertion preserves distinctness. -/
theorem insertStr_nodup {s : List Str} {x : Str} (h : s.Nodup) :
    (insertStr s x).Nodup := by
  unfold insertStr
  split
  · exact h
  · rename_i hc
    simp only [List.contains_iff_exists_mem_beq, beq_iff_eq, not_exists,
      not_and] at hc
    refine List.Nodup.append h (List.nodup_singleton x) ?_
    intro a ha hax
    rw [List.mem_singleton] at hax
    exact hc a ha hax.symm

/-- Folding set insertions preserves distinctness. -/
theorem foldl_insertStr_nodup :
    ∀ (l : List Str) (acc : List Str), acc.Nodup → (l.foldl insertStr acc).Nodup
  | [], _, h => h
  | x :: t, acc, h => foldl_insertStr_nodup t (insertStr acc x) (insertStr_nodup h)

/-- Folding set insertions collects every inserted element. -/
theorem foldl_insertStr_mem :
    ∀ (l : List Str) (acc : List Str) (k : Str),
      (k ∈ acc ∨ k ∈ l) → k ∈ l.foldl insertStr acc
  | [], _, _, h => h.elim id (fun hk => absurd hk (List.not_mem_nil _))
  | x :: t, acc, k, h => by
    show k ∈ t.foldl insertStr (insertStr acc x)
    rcases h with hacc | hmem
    · exact foldl_insertStr_mem t _ k (Or.inl (insertStr_mem.mpr (Or.inl hacc)))
    · rcases List.mem_cons.mp hmem with rfl | ht
      · exact foldl_insertStr_mem t _ k (Or.inl (insertStr_mem.mpr (Or.inr rfl)))
      · exact foldl_insertStr_mem t _ k (Or.inr ht)

/-- The group keys are distinct. -/
theorem firstSeenKeys_nodup (urls : List Str) : (firstSeenKeys urls).Nodup :=
  foldl_insertStr_nodup _ [] List.nodup_nil

/-- Every URL's key occurs among the group keys. -/
theorem firstSeenKeys_covers {urls : List Str} {x : Str} (hx : x ∈ urls) :
    urlKey x ∈ firstSeenKeys urls :=
  foldl_insertStr_mem _ [] _ (Or.inr (List.mem_map_of_mem urlKey hx))

/-- Pushing a URL whose key is already present appends it to that key's
group and leaves the other groups unchanged. -/
theorem insertGroup_mem_key (keys : List Str) (urls : List Str) (u : Str)
    (hnd : keys.Nodup) (hmem : urlKey u ∈ keys) :
    insertGroup (keys.map (fun k => (k, urls.filter (fun x => urlKey x = k))))
        (urlKey u) u =
      keys.map (fun k => (k, (urls ++ [u]).filter (fun x => urlKey x = k))) := by
  induction keys with
  | nil => exact absurd hmem (List.not_mem_nil _)
  | cons k0 krest ih =>
    rw [List.map_cons, List.map_cons]
    by_cases hk : k0 = urlKey u
    · show (if k0 = urlKey u then _ else _) = _
      rw [if_pos hk]
      subst hk
      have hk0 : (urls ++ [u]).filter (fun x => urlKey x = urlKey u) =
          urls.filter (fun x => urlKey x = urlKey u) ++ [u] := by
        rw [List.filter_append]
        simp
      rw [hk0]
      have hrest : krest.map (fun k => (k, (urls ++ [u]).filter (fun x => urlKey x = k))) =
          krest.map (fun k => (k, urls.filter (fun x => urlKey x = k))) := by
        apply List.map_congr_left
        intro k hkrest
        have hne : ¬(urlKey u = k) := by
          intro he
          exact (List.nodup_cons.mp hnd).1 (he ▸ hkrest)
        rw [List.filter_append]
        simp [hne]
      rw [hrest]
    · show (if k0 = urlKey u then _ else _) = _
      rw [if_neg hk]
      have hmem' : urlKey u ∈ krest := by
        rcases List.mem_cons.mp hmem with he | ht
        · exact absurd he.symm hk
        · exact ht
      rw [ih (List.nodup_cons.mp hnd).2 hmem']
      have hne : ¬(urlKey u = k0) := fun he => hk he.symm
      have hk0 : (urls ++ [u]).filter (fun x => urlKey x = k0) =
          urls.filter (fun x => urlKey x = k0) := by
        rw [List.filter_append]
        simp [hne]
      rw [hk0]

/-- Pushing a URL with a fresh key leaves the existing groups unchanged and
opens a new group at the end. -/
theorem insertGroup_new_key (keys : List Str) (urls : List Str) (u : Str)
    (hmem : urlKey u ∉ keys) :
    insertGroup (keys.map (fun k => (k, urls.filter (fun x => urlKey x = k))))
        (urlKey u) u =
      keys.map (fun k => (k, (urls ++ [u]).filter (fun x => urlKey x = k))) ++
        [(urlKey u, [u])] := by
  induction keys with
  | nil => rfl
  | cons k0 krest ih =>
    rw [List.map_cons, List.map_cons]
    have hk : k0 ≠ urlKey u := fun he => hmem (he ▸ List.mem_cons_self k0 krest)
    show (if k0 = urlKey u then _ else _) = _
    rw [if_neg hk]
    rw [ih (fun hm => hmem (List.mem_cons_of_mem k0 hm))]
    have hne : ¬(urlKey u = k0) := fun he => hk he.symm
    have hk0 : (urls ++ [u]).filter (fun x => urlKey x = k0) =
        urls.filter (fun x => urlKey x = k0) := by
      rw [List.filter_append]
      simp [hne]
    rw [hk0, List.cons_append]

/-- group_by_host computes the claim's grouping: keys in first-seen order,
each key paired with the input URLs carrying that key, in input order. -/
theorem group_by_host_eq_spec (urls : List Str) :
    group_by_host urls = groupSpec urls := by
  induction urls using List.reverseRecOn with
  | nil => rfl
  | append_singleton us u ih =>
    have hg : group_by_host (us ++ [u]) =
        insertGroup (group_by_host us) (urlKey u) u := by
      simp [group_by_host, List.foldl_append]
    have hkeys : firstSeenKeys (us ++ [u]) =
        insertStr (firstSeenKeys us) (urlKey u) := by
      simp [firstSeenKeys, List.foldl_append]
    rw [hg, ih]
    unfold groupSpec
    rw [hkeys]
    by_cases hmem : urlKey u ∈ firstSeenKeys us
    · rw [insertGroup_mem_key _ _ _ (firstSeenKeys_nodup us) hmem]
      have hins : insertStr (firstSeenKeys us) (urlKey u) = firstSeenKeys us := by
        unfold insertStr
        rw [if_pos]
        simp only [List.contains_iff_exists_mem_beq, beq_iff_eq]
        exact ⟨urlKey u, hmem, rfl⟩
      rw [hins]
    · rw [insertGroup_new_key _ _ _ hmem]
      have hins : insertStr (firstSeenKeys us) (urlKey u) =
          firstSeenKeys us ++ [urlKey u] := by
        unfold insertStr
        rw [if_neg]
        simp only [List.contains_iff_exists_mem_beq, beq_iff_eq, not_exists, not_and]
        intro a ha he
        exact hmem (he ▸ ha)
      rw [hins, List.map_append, List.map_singleton]
      have hfu : (us ++ [u]).filter (fun x => urlKey x = urlKey u) = [u] := by
        rw [List.filter_append]
        have hus : us.filter (fun x => urlKey x = urlKey u) = [] := by
          rw [List.filter_eq_nil_iff]
          intro x hx
          simp only [decide_eq_true_eq]
          intro he
          exact hmem (he ▸ firstSeenKeys_covers hx)
        rw [hus]
        simp
      rw [hfu]

/-- Claim C7: group_by_host partitions any URL list by the
scheme://host[:port] key (unparseable URLs under the empty key), with each
group's URLs in original relative order and the keys in first-seen order;
and on the S1 input it yields exactly the three expected groups. -/
theorem C7_group_by_host :
    (∀ urls : List Str, group_by_host urls = groupSpec urls) ∧
    group_by_host
      [("https://a.com/x".data), ("https://a.com/y".data), ("https://b.com/".data),
       ("http://a.com:81/".data), ("http://a.com:81/z".data)] =
      [(("https://a.com".data),
        [("https://a.com/x".data), ("https://a.com/y".data)]),
       (("https://b.com".data), [("https://b.com/".data)]),
       (("http://a.com:81".data),
        [("http://a.com:81/".data), ("http://a.com:81/z".data)])] := by
  constructor
  · exact group_by_host_eq_spec
  · decide

/-! ## Claim C3 -/

/-- confRank separates the confidence levels. -/
theorem confRank_inj {a b : Confidence} : confRank a = confRank b ↔ a = b := by
  cases a <;> cases b <;> decide

/-- The dedup key order is reflexive. -/
theorem dedupKeyLe_refl (p : Package) : dedupKeyLe p p := by
  unfold dedupKeyLe
  omega

/-- The dedup key order is transitive. -/
theorem dedupKeyLe_trans {a b c : Package}
    (h1 : dedupKeyLe a b) (h2 : dedupKeyLe b c) : dedupKeyLe a c := by
  unfold dedupKeyLe at *
  omega

/-- A winning challenger dominates the entry it replaces. -/
theorem dedupBetter_true_le {p e : Package} (h : dedupBetter p e = true) :
    dedupKeyLe e p := by
  unfold dedupBetter at h
  simp only [Bool.or_eq_true, Bool.and_eq_true, decide_eq_true_eq] at h
  unfold dedupKeyLe
  rcases h with h | ⟨he, hp⟩
  · omega
  · rw [← confRank_inj] at he
    omega

/-- A losing challenger is dominated by the kept entry. -/
theorem dedupBetter_false_le {p e : Package} (h : dedupBetter p e = false) :
    dedupKeyLe p e := by
  unfold dedupBetter at h
  simp only [Bool.or_eq_false_iff, Bool.and_eq_false_iff,
    decide_eq_false_iff_not] at h
  unfold dedupKeyLe
  obtain ⟨h1, h2⟩ := h
  rcases Nat.lt_or_ge (confRank p.confidence) (confRank e.confidence) with hlt | hge
  · exact Or.inl hlt
  · have heq : confRank p.confidence = confRank e.confidence := by omega
    rcases h2 with hne | hple
    · exact absurd (confRank_inj.mp heq) hne
    · exact Or.inr ⟨heq, by omega⟩

/-- Every key of dedupInsert's output is an old key or the inserted name. -/
theorem dedupInsert_key_origin :
    ∀ (acc : List (Str × Package)) (pkg : Package) (e : Str × Package),
      e ∈ dedupInsert acc pkg → e.1 ∈ acc.map Prod.fst ∨ e.1 = pkg.name
  | [], pkg, e, h => by
    rw [show dedupInsert [] pkg = [(pkg.name, pkg)] from rfl,
      List.mem_singleton] at h
    subst h
    exact Or.inr rfl
  | (n, ex) :: accT, pkg, e, h => by
    simp only [dedupInsert] at h
    by_cases hn : n = pkg.name
    · rw [if_pos hn] at h
      have hcases : e = (n, pkg) ∨ e = (n, ex) ∨ e ∈ accT := by
        split at h
        · rcases List.mem_cons.mp h with rfl | hT
          · exact Or.inl rfl
          · exact Or.inr (Or.inr hT)
        · rcases List.mem_cons.mp h with rfl | hT
          · exact Or.inr (Or.inl rfl)
          · exact Or.inr (Or.inr hT)
      rcases hcases with rfl | rfl | hT
      · exact Or.inl (by rw [List.map_cons]; exact List.mem_cons_self _ _)
      · exact Or.inl (by rw [List.map_cons]; exact List.mem_cons_self _ _)
      · refine Or.inl ?_
        rw [List.map_cons]
        exact List.mem_cons_of_mem _ (List.mem_map_of_mem Prod.fst hT)
    · rw [if_neg hn] at h
      rcases List.mem_cons.mp h with rfl | hT
      · exact Or.inl (by rw [List.map_cons]; exact List.mem_cons_self _ _)
      · rcases dedupInsert_key_origin accT pkg e hT with hold | hnew
        · refine Or.inl ?_
          rw [List.map_cons]
          exact List.mem_cons_of_mem _ hold
        · exact Or.inr hnew

/-- Inserting a non-skipped candidate preserves key distinctness and carries
every entry invariant one candidate forward. -/
theorem dedupInsert_inv (processed : List Package) (pkg : Package)
    (hskip : should_skip_package pkg = false) :
    ∀ acc : List (Str × Package),
      (acc.map Prod.fst).Nodup →
      (∀ e ∈ acc, entryInv processed e) →
      (pkg.name ∉ acc.map Prod.fst →
        ∀ q ∈ processed, q.name = pkg.name → should_skip_package q = true) →
      ((dedupInsert acc pkg).map Prod.fst).Nodup ∧
      (∀ e ∈ dedupInsert acc pkg, entryInv (processed ++ [pkg]) e) := by
  intro acc
  induction acc with
  | nil =>
    intro _hnd _hinv hfresh
    refine ⟨List.nodup_singleton _, ?_⟩
    intro e he
    rw [show dedupInsert [] pkg = [(pkg.name, pkg)] from rfl,
      List.mem_singleton] at he
    subst he
    refine ⟨rfl, List.mem_append_right _ (List.mem_singleton.mpr rfl), hskip, ?_⟩
    intro q hq hname hqskip
    rcases List.mem_append.mp hq with hqp | hqu
    · have hcon := hfresh (by simp) q hqp hname
      rw [hcon] at hqskip
      exact absurd hqskip (by decide)
    · rw [List.mem_singleton] at hqu
      subst hqu
      exact dedupKeyLe_refl q
  | cons e0 accT ih =>
    obtain ⟨n, ex⟩ := e0
    intro hnd hinv hfresh
    have hnd' : (n :: accT.map Prod.fst).Nodup := by
      rw [List.map_cons] at hnd
      exact hnd
    have hndT : (accT.map Prod.fst).Nodup := (List.nodup_cons.mp hnd').2
    have hnotT : n ∉ accT.map Prod.fst := (List.nodup_cons.mp hnd').1
    have hinv0 : entryInv processed (n, ex) := hinv _ (List.mem_cons_self _ _)
    have hinvT : ∀ e ∈ accT, entryInv processed e :=
      fun e he => hinv e (List.mem_cons_of_mem _ he)
    by_cases hn : n = pkg.name
    · subst hn
      -- tail entries keep their invariant: none can carry the head's key
      have htail : ∀ e ∈ accT, entryInv (processed ++ [pkg]) e := by
        intro e hT
        have hI := hinvT e hT
        refine ⟨hI.1, List.mem_append_left _ hI.2.1, hI.2.2.1, ?_⟩
        intro q hq hname hqskip
        rcases List.mem_append.mp hq with hqp | hqu
        · exact hI.2.2.2 q hqp hname hqskip
        · rw [List.mem_singleton] at hqu
          subst hqu
          exfalso
          have hkey : e.1 ∈ accT.map Prod.fst := List.mem_map_of_mem Prod.fst hT
          rw [← hname] at hkey
          exact hnotT hkey
      simp only [dedupInsert, if_true]
      by_cases hbet : dedupBetter pkg ex = true
      · rw [if_pos hbet]
        constructor
        · rw [List.map_cons]
          exact hnd'
        · intro e he
          rcases List.mem_cons.mp he with rfl | hT
          · refine ⟨rfl, List.mem_append_right _ (List.mem_singleton.mpr rfl),
              hskip, ?_⟩
            intro q hq hname hqskip
            rcases List.mem_append.mp hq with hqp | hqu
            · exact dedupKeyLe_trans
                (hinv0.2.2.2 q hqp (by simpa using hname) hqskip)
                (dedupBetter_true_le hbet)
            · rw [List.mem_singleton] at hqu
              subst hqu
              exact dedupKeyLe_refl q
          · exact htail e hT
      · rw [if_neg hbet]
        have hbf : dedupBetter pkg ex = false := by
          simpa using hbet
        constructor
        · rw [List.map_cons]
          exact hnd'
        · intro e he
          rcases List.mem_cons.mp he with rfl | hT
          · refine ⟨hinv0.1, List.mem_append_left _ hinv0.2.1, hinv0.2.2.1, ?_⟩
            intro q hq hname hqskip
            rcases List.mem_append.mp hq with hqp | hqu
            · exact hinv0.2.2.2 q hqp hname hqskip
            · rw [List.mem_singleton] at hqu
              subst hqu
              have hle : dedupKeyLe q ex := dedupBetter_false_le hbf
              exact hle
          · exact htail e hT
    · simp only [dedupInsert]
      rw [if_neg hn]
      have hfreshT : pkg.name ∉ accT.map Prod.fst →
          ∀ q ∈ processed, q.name = pkg.name → should_skip_package q = true := by
        intro hni q hq hname
        refine hfresh ?_ q hq hname
        simp only [List.map_cons, List.mem_cons, not_or]
        exact ⟨fun he => hn he.symm, hni⟩
      obtain ⟨hndI, hinvI⟩ := ih hndT hinvT hfreshT
      constructor
      · simp only [List.map_cons, List.nodup_cons]
        refine ⟨?_, hndI⟩
        intro hmem
        obtain ⟨e2, he2, hkey⟩ := List.mem_map.mp hmem
        rcases dedupInsert_key_origin accT pkg e2 he2 with hold | hnew
        · exact hnotT (hkey ▸ hold)
        · exact hn (by rw [← hkey, hnew])
      · intro e he
        rcases List.mem_cons.mp he with rfl | hT
        · refine ⟨hinv0.1, List.mem_append_left _ hinv0.2.1, hinv0.2.2.1, ?_⟩
          intro q hq hname hqskip
          rcases List.mem_append.mp hq with hqp | hqu
          · exact hinv0.2.2.2 q hqp hname hqskip
          · rw [List.mem_singleton] at hqu
            subst hqu
            exact absurd hname.symm hn
        · exact hinvI e hT

/-- dedupInsert keeps a representative of every existing key. -/
theorem dedupInsert_keeps_key :
    ∀ (acc : List (Str × Package)) (pkg : Package) (e : Str × Package),
      e ∈ acc → ∃ e2 ∈ dedupInsert acc pkg, e2.1 = e.1
  | [], _, _, h => absurd h (List.not_mem_nil _)
  | (n, ex) :: accT, pkg, e, h => by
    simp only [dedupInsert]
    by_cases hn : n = pkg.name
    · rw [if_pos hn]
      rcases List.mem_cons.mp h with rfl | hT
      · split
        · exact ⟨(n, pkg), List.mem_cons_self _ _, rfl⟩
        · exact ⟨(n, ex), List.mem_cons_self _ _, rfl⟩
      · split
        · exact ⟨e, List.mem_cons_of_mem _ hT, rfl⟩
        · exact ⟨e, List.mem_cons_of_mem _ hT, rfl⟩
    · rw [if_neg hn]
      rcases List.mem_cons.mp h with rfl | hT
      · exact ⟨(n, ex), List.mem_cons_self _ _, rfl⟩
      · obtain ⟨e2, he2, hkey⟩ := dedupInsert_keeps_key accT pkg e hT
        exact ⟨e2, List.mem_cons_of_mem _ he2, hkey⟩

/-- dedupInsert establishes the inserted name's key. -/
theorem dedupInsert_has_key :
    ∀ (acc : List (Str × Package)) (pkg : Package),
      ∃ e ∈ dedupInsert acc pkg, e.1 = pkg.name
  | [], pkg => ⟨(pkg.name, pkg), List.mem_cons_self _ _, rfl⟩
  | (n, ex) :: accT, pkg => by
    simp only [dedupInsert]
    by_cases hn : n = pkg.name
    · rw [if_pos hn]
      split
      · exact ⟨(n, pkg), List.mem_cons_self _ _, hn⟩
      · exact ⟨(n, ex), List.mem_cons_self _ _, hn⟩
    · rw [if_neg hn]
      obtain ⟨e2, he2, hkey⟩ := dedupInsert_has_key accT pkg
      exact ⟨e2, List.mem_cons_of_mem _ he2, hkey⟩

/-- One fold step preserves the name coverage of the by_name map. -/
theorem dedup_step_coverage (processed : List Package) (pkg : Package)
    (acc : List (Str × Package))
    (hcov : ∀ q ∈ processed, should_skip_package q = false →
      ∃ e ∈ acc, e.1 = q.name) :
    ∀ q ∈ processed ++ [pkg], should_skip_package q = false →
      ∃ e ∈ (if should_skip_package pkg then acc else dedupInsert acc pkg),
        e.1 = q.name := by
  intro q hq hqskip
  rcases List.mem_append.mp hq with hqp | hqu
  · obtain ⟨e, he, hkey⟩ := hcov q hqp hqskip
    split
    · exact ⟨e, he, hkey⟩
    · obtain ⟨e2, he2, hk2⟩ := dedupInsert_keeps_key acc pkg e he
      exact ⟨e2, he2, hk2.trans hkey⟩
  · rw [List.mem_singleton] at hqu
    rw [hqu] at hqskip ⊢
    split
    · rename_i hsk
      exact absurd hqskip (by simp [hsk])
    · obtain ⟨e, he, hkey⟩ := dedupInsert_has_key acc pkg
      exact ⟨e, he, hkey⟩

/-- The deduplication fold invariant: every entry of the final by_name map is
a non-skipped candidate that dominates every non-skipped candidate of its
name. -/
theorem dedup_fold_inv :
    ∀ (ps : List Package) (acc : List (Str × Package)) (processed : List Package),
      (acc.map Prod.fst).Nodup →
      (∀ e ∈ acc, entryInv processed e) →
      (∀ q ∈ processed, should_skip_package q = false →
        ∃ e ∈ acc, e.1 = q.name) →
      ∀ e ∈ ps.foldl
        (fun a p => if should_skip_package p then a else dedupInsert a p) acc,
        entryInv (processed ++ ps) e
  | [], acc, processed, _hnd, hinv, _hcov, e, he => by
    rw [List.append_nil]
    exact hinv e he
  | p :: ps, acc, processed, hnd, hinv, hcov, e, he => by
    rw [List.foldl_cons] at he
    have happ : processed ++ p :: ps = (processed ++ [p]) ++ ps := by simp
    rw [happ]
    have hcov' := dedup_step_coverage processed p acc hcov
    by_cases hsk : should_skip_package p = true
    · rw [if_pos hsk] at he hcov'
      have hinv' : ∀ e ∈ acc, entryInv (processed ++ [p]) e := by
        intro e2 he2
        have hI := hinv e2 he2
        refine ⟨hI.1, List.mem_append_left _ hI.2.1, hI.2.2.1, ?_⟩
        intro q hq hname hqskip
        rcases List.mem_append.mp hq with hqp | hqu
        · exact hI.2.2.2 q hqp hname hqskip
        · rw [List.mem_singleton] at hqu
          subst hqu
          rw [hsk] at hqskip
          exact absurd hqskip (by decide)
      exact dedup_fold_inv ps acc (processed ++ [p]) hnd hinv' hcov' e he
    · have hskf : should_skip_package p = false := by simpa using hsk
      rw [if_neg hsk] at he
      rw [if_neg (by simp [hskf])] at hcov'
      have hfresh : p.name ∉ acc.map Prod.fst →
          ∀ q ∈ processed, q.name = p.name → should_skip_package q = true := by
        intro hni q hq hname
        by_contra hqs
        have hqskip : should_skip_package q = false := by simpa using hqs
        obtain ⟨e2, he2, hkey⟩ := hcov q hq hqskip
        apply hni
        rw [← hname, ← hkey]
        exact List.mem_map_of_mem Prod.fst he2
      obtain ⟨hnd', hinv'⟩ := dedupInsert_inv processed p hskf acc hnd hinv hfresh
      exact dedup_fold_inv ps (dedupInsert acc p) (processed ++ [p])
        hnd' hinv' hcov' e he

/-- Counterexample to claim C3 as stated: candidates rejected by the
secondary heuristic (should_skip_package) are dropped before grouping, so a
skipped high-confidence WebpackChunk record loses to a low-confidence Import
record of the same name, which is then not the maximum of the whole group. -/
theorem C3_counterexample :
    ¬ claimDedupMaximal
      [{ name := ("helloworld".data), extraction_method := ExtractionMethod.WebpackChunk,
         source_url := ("a.js".data), confidence := Confidence.High },
       { name := ("helloworld".data), extraction_method := ExtractionMethod.Import,
         source_url := ("b.js".data), confidence := Confidence.Low }] := by
  unfold claimDedupMaximal dedupKeyLe
  decide

/-- Claim C3 amended: the method priority ranks import-like methods above
bundle-structure methods above text-mining methods, and deduplication keeps,
for every name in the output, a candidate that was not rejected by the
secondary heuristic and that is a maximum, under the (confidence, priority)
lexicographic order, of the name's group of non-rejected candidates. -/
theorem C3_amended_dedup :
    (∀ m, extraction_priority m = specMethodRank m) ∧
    ∀ (packages : List Package) (p : Package), p ∈ deduplicate_packages packages →
      p ∈ packages ∧ should_skip_package p = false ∧
      ∀ q ∈ packages, q.name = p.name → should_skip_package q = false →
        dedupKeyLe q p := by
  constructor
  · intro m
    cases m <;> rfl
  · intro packages p hp
    unfold deduplicate_packages at hp
    obtain ⟨e, he, hpe⟩ := List.mem_map.mp hp
    have hinv := dedup_fold_inv packages [] [] List.nodup_nil
      (fun e2 he2 => absurd he2 (List.not_mem_nil _))
      (fun q hq => absurd hq (List.not_mem_nil _)) e he
    rw [List.nil_append] at hinv
    obtain ⟨hname, hmem, hskip, hdom⟩ := hinv
    subst hpe
    refine ⟨hmem, hskip, ?_⟩
    intro q hq hqname hqskip
    exact hdom q hq (hqname.trans hname) hqskip

/-- Witness for C3 at a concrete input: the priority of Import is its claimed
rank, and a single lodash Import record is kept and dominates itself. -/
theorem C3_amended_dedup_witness :
    extraction_priority ExtractionMethod.Import = specMethodRank ExtractionMethod.Import ∧
    dedupKeyLe
      { name := ("lodash".data), extraction_method := ExtractionMethod.Import,
        source_url := ("a.js".data), confidence := Confidence.High }
      { name := ("lodash".data), extraction_method := ExtractionMethod.Import,
        source_url := ("a.js".data), confidence := Confidence.High } := by
  refine ⟨C3_amended_dedup.1 ExtractionMethod.Import, ?_⟩
  exact (C3_amended_dedup.2
    [{ name := ("lodash".data), extraction_method := ExtractionMethod.Import,
       source_url := ("a.js".data), confidence := Confidence.High }]
    { name := ("lodash".data), extraction_method := ExtractionMethod.Import,
      source_url := ("a.js".data), confidence := Confidence.High }
    (by decide)).2.2
    { name := ("lodash".data), extraction_method := ExtractionMethod.Import,
      source_url := ("a.js".data), confidence := Confidence.High }
    (by decide) rfl (by decide)

/-! ## Claim C5 -/

/-- List.contains agrees with membership on strings. -/
theorem contains_iff_mem {l : List Str} {x : Str} :
    l.contains x = true ↔ x ∈ l := by
  rw [List.contains_iff_exists_mem_beq]
  constructor
  · rintro ⟨b, hb, he⟩
    rw [beq_iff_eq] at he
    exact he ▸ hb
  · intro h
    exact ⟨x, h, by simp⟩

/-- Substring containment is definedness of the substring search. -/
theorem strContains_eq_isSome :
    ∀ (s pat : Str), strContains s pat = (strFind s pat).isSome
  | [], pat => by
    by_cases hp : pat.isEmpty <;> simp [strContains, strFind, hp]
  | c :: rest, pat => by
    by_cases hp : pat.isPrefixOf (c :: rest) = true
    · simp [strContains, strFind, hp]
    · simp only [Bool.not_eq_true] at hp
      simp [strContains, strFind, hp, strContains_eq_isSome rest pat]

/-- The classification fold collects exactly the names the claim's two sets
describe, on top of whatever was already accumulated. -/
theorem smFold_mem :
    ∀ (sources : List Str) (accN accW : List Str) (n : Str),
      (n ∈ (sources.foldl smStep (accN, accW)).1 ↔
        n ∈ accN ∨ n ∈ specNodeSeen sources) ∧
      (n ∈ (sources.foldl smStep (accN, accW)).2 ↔
        n ∈ accW ∨ n ∈ specWorkspaceSeen sources)
  | [], accN, accW, n => by simp [specNodeSeen, specWorkspaceSeen]
  | s0 :: rest, accN, accW, n => by
    rw [List.foldl_cons]
    have hcontains := strContains_eq_isSome (stripWebpack s0) ("node_modules/".data)
    cases hf1 : strFind (stripWebpack s0) ("node_modules/".data) with
    | some idx =>
      have hc : strContains (stripWebpack s0) ("node_modules/".data) = true := by
        rw [hcontains, hf1]
        rfl
      have hW : specWorkspaceSeen (s0 :: rest) = specWorkspaceSeen rest := by
        simp [specWorkspaceSeen, List.filterMap_cons, hc]
      cases he1 : extract_package_from_path_segment
          (byteDrop (stripWebpack s0) (idx + 13)) with
      | some name =>
        have hstep : smStep (accN, accW) s0 = (insertStr accN name, accW) := by
          simp [smStep, hf1, he1]
        have hN : specNodeSeen (s0 :: rest) = name :: specNodeSeen rest := by
          simp [specNodeSeen, List.filterMap_cons, hf1, he1]
        rw [hstep, hN, hW]
        obtain ⟨ih1, ih2⟩ := smFold_mem rest (insertStr accN name) accW n
        refine ⟨?_, ih2⟩
        rw [ih1, insertStr_mem]
        constructor
        · rintro ((h | h) | h)
          · exact Or.inl h
          · subst h
            exact Or.inr (List.mem_cons_self _ _)
          · exact Or.inr (List.mem_cons_of_mem _ h)
        · rintro (h | h)
          · exact Or.inl (Or.inl h)
          · rcases List.mem_cons.mp h with rfl | h2
            · exact Or.inl (Or.inr rfl)
            · exact Or.inr h2
      | none =>
        have hstep : smStep (accN, accW) s0 = (accN, accW) := by
          simp [smStep, hf1, he1]
        have hN : specNodeSeen (s0 :: rest) = specNodeSeen rest := by
          simp [specNodeSeen, List.filterMap_cons, hf1, he1]
        rw [hstep, hN, hW]
        exact smFold_mem rest accN accW n
    | none =>
      have hc : strContains (stripWebpack s0) ("node_modules/".data) = false := by
        rw [hcontains, hf1]
        rfl
      have hN : specNodeSeen (s0 :: rest) = specNodeSeen rest := by
        simp [specNodeSeen, List.filterMap_cons, hf1]
      cases hf2 : strFind (stripWebpack s0) ("packages/".data) with
      | some idx =>
        cases he2 : extract_package_from_path_segment
            (byteDrop (stripWebpack s0) (idx + 9)) with
        | some name =>
          have hstep : smStep (accN, accW) s0 = (accN, insertStr accW name) := by
            simp [smStep, hf1, hf2, he2]
          have hW : specWorkspaceSeen (s0 :: rest) =
              name :: specWorkspaceSeen rest := by
            simp [specWorkspaceSeen, List.filterMap_cons, hc, hf2, he2]
          rw [hstep, hN, hW]
          obtain ⟨ih1, ih2⟩ := smFold_mem rest accN (insertStr accW name) n
          refine ⟨ih1, ?_⟩
          rw [ih2, insertStr_mem]
          constructor
          · rintro ((h | h) | h)
            · exact Or.inl h
            · subst h
              exact Or.inr (List.mem_cons_self _ _)
            · exact Or.inr (List.mem_cons_of_mem _ h)
          · rintro (h | h)
            · exact Or.inl (Or.inl h)
            · rcases List.mem_cons.mp h with rfl | h2
              · exact Or.inl (Or.inr rfl)
              · exact Or.inr h2
        | none =>
          have hstep : smStep (accN, accW) s0 = (accN, accW) := by
            simp [smStep, hf1, hf2, he2]
          have hW : specWorkspaceSeen (s0 :: rest) = specWorkspaceSeen rest := by
            simp [specWorkspaceSeen, List.filterMap_cons, hc, hf2, he2]
          rw [hstep, hN, hW]
          exact smFold_mem rest accN accW n
      | none =>
        have hstep : smStep (accN, accW) s0 = (accN, accW) := by
          simp [smStep, hf1, hf2]
        have hW : specWorkspaceSeen (s0 :: rest) = specWorkspaceSeen rest := by
          simp [specWorkspaceSeen, List.filterMap_cons, hc, hf2]
        rw [hstep, hN, hW]
        exact smFold_mem rest accN accW n

/-- The returned workspace-only set is exactly the claim's W minus N. -/
theorem sourcemap_parse_snd_mem (doc : SourceMapDoc) (url n : Str) :
    n ∈ (sourcemap_parse doc url).2 ↔
      n ∈ specWorkspaceSeen doc.sources ∧ n ∉ specNodeSeen doc.sources := by
  have h2 : (sourcemap_parse doc url).2 =
      ((smClassify doc.sources).2).filter
        (fun m => !((smClassify doc.sources).1).contains m) := rfl
  rw [h2, List.mem_filter]
  obtain ⟨ih1, ih2⟩ := smFold_mem doc.sources [] [] n
  unfold smClassify
  rw [ih2]
  constructor
  · rintro ⟨hW, hnc⟩
    simp only [Bool.not_eq_true'] at hnc
    refine ⟨?_, ?_⟩
    · rcases hW with h | h
      · exact absurd h (List.not_mem_nil n)
      · exact h
    · intro hN
      have : n ∈ (doc.sources.foldl smStep ([], [])).1 := ih1.mpr (Or.inr hN)
      rw [← contains_iff_mem] at this
      rw [hnc] at this
      exact absurd this (by decide)
  · rintro ⟨hW, hN⟩
    refine ⟨Or.inr hW, ?_⟩
    simp only [Bool.not_eq_true']
    by_contra hcon
    have hct : ((doc.sources.foldl smStep ([], [])).1).contains n = true := by
      rcases Bool.eq_false_or_eq_true
          (((doc.sources.foldl smStep ([], [])).1).contains n) with ht | hf
      · exact ht
      · exact absurd hf hcon
    have := contains_iff_mem.mp hct
    rcases ih1.mp this with h | h
    · exact absurd h (List.not_mem_nil n)
    · exact hN h

/-- Every returned package escapes the workspace-only set. -/
theorem sourcemap_parse_fst_not_ws (doc : SourceMapDoc) (url : Str) :
    ∀ p ∈ (sourcemap_parse doc url).1, p.name ∉ (sourcemap_parse doc url).2 := by
  intro p hp
  simp only [sourcemap_parse] at hp ⊢
  rw [List.mem_filter] at hp
  have hpred := hp.2
  simp only [Bool.not_eq_true'] at hpred
  intro hmem
  rw [← contains_iff_mem] at hmem
  rw [hpred] at hmem
  exact absurd hmem (by decide)

/-- Claim C5: a name extracted under a packages/ path of a source map but
under no node_modules/ path is returned in the workspace-only set and is
absent from the returned package list; and the S3 map yields exactly the
lodash package and the workspace-only set containing private-lib. -/
theorem C5_workspace_suppression :
    (∀ (doc : SourceMapDoc) (url n : Str),
      (n ∈ (sourcemap_parse doc url).2 ↔
        n ∈ specWorkspaceSeen doc.sources ∧ n ∉ specNodeSeen doc.sources) ∧
      (n ∈ (sourcemap_parse doc url).2 →
        ∀ p ∈ (sourcemap_parse doc url).1, p.name ≠ n)) ∧
    sourcemap_parse
      { sources := [("webpack:///packages/private-lib/src/x.js".data),
                    ("webpack:///node_modules/lodash/x.js".data)],
        sourcesContent := [] } ("bundle.js.map".data) =
      ([{ name := ("lodash".data), extraction_method := ExtractionMethod.SourceMap,
          source_url := ("bundle.js.map".data), confidence := Confidence.High }],
       [("private-lib".data)]) := by
  constructor
  · intro doc url n
    refine ⟨sourcemap_parse_snd_mem doc url n, ?_⟩
    intro hn p hp he
    exact sourcemap_parse_fst_not_ws doc url p hp (he ▸ hn)
  · decide

/-- Witness for C5 at the S3 map: private-lib is in the workspace-only set,
and the returned lodash package does not carry it. -/
theorem C5_workspace_suppression_witness :
    ("private-lib".data) ∈
      (sourcemap_parse
        { sources := [("webpack:///packages/private-lib/src/x.js".data),
                      ("webpack:///node_modules/lodash/x.js".data)],
          sourcesContent := [] } ("bundle.js.map".data)).2 ∧
    Package.name
      { name := ("lodash".data), extraction_method := ExtractionMethod.SourceMap,
        source_url := ("bundle.js.map".data), confidence := Confidence.High } ≠
      ("private-lib".data) := by
  have h := C5_workspace_suppression.1
    { sources := [("webpack:///packages/private-lib/src/x.js".data),
                  ("webpack:///node_modules/lodash/x.js".data)],
      sourcesContent := [] } ("bundle.js.map".data) ("private-lib".data)
  have hmem := (h.1).mpr ⟨by decide, by decide⟩
  refine ⟨hmem, ?_⟩
  exact h.2 hmem
    { name := ("lodash".data), extraction_method := ExtractionMethod.SourceMap,
      source_url := ("bundle.js.map".data), confidence := Confidence.High }
    (by decide)

/-! ## Claim C8 -/

/-- Both paths of runScan stamp the scanned URL as the result's target. -/
theorem runScan_target (body : Str → Except Str ScanBody) (u : Str) :
    (runScan body u).target = u := by
  unfold runScan
  cases body u <;> rfl

/-- Association-list lookup on a cons cell. -/
theorem idxLookup_cons (a : Str) (b : Nat) (rest : List (Str × Nat)) (q : Str) :
    idxLookup ((a, b) :: rest) q = if a = q then some b else idxLookup rest q := by
  by_cases h : a = q
  · simp [idxLookup, List.find?_cons, h]
  · simp [idxLookup, List.find?_cons, h]

/-- Looking up the key just inserted yields the inserted index. -/
theorem idxLookup_idxInsert_self :
    ∀ (m : List (Str × Nat)) (k : Str) (v : Nat),
      idxLookup (idxInsert m k v) k = some v
  | [], k, v => by
    show idxLookup [(k, v)] k = some v
    rw [idxLookup_cons, if_pos rfl]
  | (k0, v0) :: rest, k, v => by
    show idxLookup
        (if k0 = k then (k0, v) :: rest else (k0, v0) :: idxInsert rest k v) k =
      some v
    by_cases hk : k0 = k
    · rw [if_pos hk, idxLookup_cons, if_pos hk]
    · rw [if_neg hk, idxLookup_cons, if_neg hk]
      exact idxLookup_idxInsert_self rest k v

/-- Inserting under a different key leaves a lookup unchanged. -/
theorem idxLookup_idxInsert_other :
    ∀ (m : List (Str × Nat)) (k q : Str) (v : Nat), q ≠ k →
      idxLookup (idxInsert m k v) q = idxLookup m q
  | [], k, q, v, hq => by
    show idxLookup [(k, v)] q = idxLookup [] q
    rw [idxLookup_cons, if_neg (fun he => hq he.symm)]
  | (k0, v0) :: rest, k, q, v, hq => by
    show idxLookup
        (if k0 = k then (k0, v) :: rest else (k0, v0) :: idxInsert rest k v) q =
      idxLookup ((k0, v0) :: rest) q
    by_cases hk : k0 = k
    · rw [if_pos hk, idxLookup_cons, idxLookup_cons]
      subst hk
      rw [if_neg (fun he => hq he.symm), if_neg (fun he => hq he.symm)]
    · rw [if_neg hk, idxLookup_cons, idxLookup_cons]
      by_cases hq0 : k0 = q
      · rw [if_pos hq0, if_pos hq0]
      · rw [if_neg hq0, if_neg hq0]
        exact idxLookup_idxInsert_other rest k q v hq

/-- Folding inserts whose keys all differ from the query leaves the query's
binding unchanged. -/
theorem foldl_idxInsert_absent :
    ∀ (es : List (Nat × Str)) (acc : List (Str × Nat)) (u : Str),
      (∀ e ∈ es, e.2 ≠ u) →
      idxLookup (es.foldl (fun a e => idxInsert a e.2 e.1) acc) u = idxLookup acc u
  | [], _, _, _ => rfl
  | e0 :: rest, acc, u, h => by
    rw [List.foldl_cons]
    rw [foldl_idxInsert_absent rest _ u (fun e he => h e (List.mem_cons_of_mem _ he))]
    exact idxLookup_idxInsert_other acc e0.2 u e0.1
      (fun he => h e0 (List.mem_cons_self _ _) he.symm)

/-- When the inserted URLs are distinct, the folded map sends each URL to
its own index. -/
theorem foldl_idxInsert_lookup :
    ∀ (es : List (Nat × Str)) (acc : List (Str × Nat)) (i : Nat) (u : Str),
      (es.map (fun e => e.2)).Nodup → (i, u) ∈ es →
      idxLookup (es.foldl (fun a e => idxInsert a e.2 e.1) acc) u = some i
  | [], _, _, _, _, hmem => absurd hmem (List.not_mem_nil _)
  | (j, w) :: rest, acc, i, u, hnd, hmem => by
    rw [List.foldl_cons]
    have hnd' := List.nodup_cons.mp hnd
    rcases List.mem_cons.mp hmem with heq | hmem'
    · obtain ⟨rfl, rfl⟩ : i = j ∧ u = w := by
        injection heq with h1 h2
        exact ⟨h1, h2⟩
      have habs : ∀ e ∈ rest, e.2 ≠ u := fun e he heu =>
        hnd'.1 (heu ▸ List.mem_map_of_mem (fun e => e.2) he)
      rw [foldl_idxInsert_absent rest _ u habs]
      exact idxLookup_idxInsert_self acc u i
    · exact foldl_idxInsert_lookup rest _ i u hnd'.2 hmem'

/-- Mapping a function that returns each element's enumeration index,
paired with a second map, is the same as mapping over the enumeration. -/
theorem map_eq_enumFrom_map {β : Type} (g : Str → Nat) (f : Str → β) :
    ∀ (l : List Str) (n : Nat),
      (∀ p ∈ l.enumFrom n, g p.2 = p.1) →
      l.map (fun u => (g u, f u)) = (l.enumFrom n).map (fun e => (e.1, f e.2))
  | [], _, _ => rfl
  | u :: rest, n, h => by
    rw [List.enumFrom_cons, List.map_cons, List.map_cons]
    have h0 : g u = n := h (n, u) (List.mem_cons_self _ _)
    rw [h0, map_eq_enumFrom_map g f rest (n + 1)
      (fun p hp => h p (List.mem_cons_of_mem _ hp))]

/-- Enumeration indices are bounded below by the starting index. -/
theorem enumFrom_fst_le :
    ∀ (l : List Str) (n : Nat) (p : Nat × Str), p ∈ l.enumFrom n → n ≤ p.1
  | [], _, _, h => absurd h (List.not_mem_nil _)
  | _ :: rest, n, p, h => by
    rcases List.mem_cons.mp h with rfl | h'
    · exact Nat.le_refl n
    · exact Nat.le_trans (Nat.le_succ n) (enumFrom_fst_le rest (n + 1) p h')

/-- An enumeration, mapped while keeping the index, has strictly increasing
first components. -/
theorem pairwise_lt_enumFrom_map {β : Type} (f : Str → β) :
    ∀ (l : List Str) (n : Nat),
      List.Pairwise (fun a b : Nat × β => a.1 < b.1)
        ((l.enumFrom n).map (fun e => (e.1, f e.2)))
  | [], _ => List.Pairwise.nil
  | u :: rest, n => by
    rw [List.enumFrom_cons, List.map_cons]
    refine List.Pairwise.cons ?_ (pairwise_lt_enumFrom_map f rest (n + 1))
    intro b hb
    rcases List.mem_map.mp hb with ⟨e, he, rfl⟩
    show n < e.1
    exact Nat.lt_of_lt_of_le (Nat.lt_succ_self n) (enumFrom_fst_le rest (n + 1) e he)

/-- Concatenating the per-key filters of a covering duplicate-free key list
permutes the original list. -/
theorem flatten_filter_perm :
    ∀ (keys : List Str) (l : List Str), keys.Nodup →
      (∀ u ∈ l, urlKey u ∈ keys) →
      ((keys.map (fun k => l.filter (fun u => urlKey u = k))).flatten).Perm l
  | [], l, _, hcov => by
    cases l with
    | nil => simp
    | cons a t => exact absurd (hcov a (List.mem_cons_self a t)) (List.not_mem_nil _)
  | k :: krest, l, hnd, hcov => by
    simp only [List.map_cons, List.flatten_cons]
    have hndk := List.nodup_cons.mp hnd
    have hmapeq : krest.map (fun kr => l.filter (fun u => urlKey u = kr)) =
        krest.map (fun kr =>
          (l.filter (fun u => !decide (urlKey u = k))).filter
            (fun u => urlKey u = kr)) := by
      refine List.map_congr_left (fun kr hkr => ?_)
      have hne : kr ≠ k := fun he => hndk.1 (he ▸ hkr)
      have hpred : (fun u => decide (urlKey u = kr)) =
          (fun a => decide (urlKey a = kr) && !decide (urlKey a = k)) := by
        funext u
        by_cases hu : urlKey u = kr
        · simp [hu, hne]
        · simp [hu]
      rw [List.filter_filter, ← hpred]
    have hcovrest : ∀ u ∈ l.filter (fun u => !decide (urlKey u = k)),
        urlKey u ∈ krest := by
      intro u hu
      obtain ⟨hul, hb⟩ := List.mem_filter.mp hu
      have hk2 : urlKey u ≠ k := by simpa using hb
      rcases List.mem_cons.mp (hcov u hul) with he | hin
      · exact absurd he hk2
      · exact hin
    rw [hmapeq]
    refine List.Perm.trans
      (List.Perm.append_left _
        (flatten_filter_perm krest _ hndk.2 hcovrest)) ?_
    exact List.filter_append_perm _ l

/-- An insertion sort by first component of a permutation of a list whose
first components are strictly increasing recovers that list. -/
theorem sort_eq_of_perm_enum (L canon : List (Nat × ScanResultM))
    (hperm : L.Perm canon)
    (hcanon : List.Pairwise (fun a b : Nat × ScanResultM => a.1 < b.1) canon) :
    List.insertionSort (fun a b : Nat × ScanResultM => a.1 ≤ b.1) L = canon := by
  haveI instTot : IsTotal (Nat × ScanResultM) (fun a b => a.1 ≤ b.1) :=
    ⟨fun a b => Nat.le_total a.1 b.1⟩
  haveI instTrans : IsTrans (Nat × ScanResultM) (fun a b => a.1 ≤ b.1) :=
    ⟨fun a b c hab hbc => Nat.le_trans hab hbc⟩
  haveI instTransLt : IsTrans (Nat × ScanResultM) (fun a b => a.1 < b.1) :=
    ⟨fun a b c hab hbc => Nat.lt_trans hab hbc⟩
  haveI instAnti : IsAntisymm (Nat × ScanResultM) (fun a b => a.1 < b.1) :=
    ⟨fun a b hab hba => absurd hba (Nat.lt_asymm hab)⟩
  have hp2 : (List.insertionSort (fun a b : Nat × ScanResultM => a.1 ≤ b.1) L).Perm
      canon :=
    (List.perm_insertionSort _ L).trans hperm
  have hs : List.Sorted (fun a b : Nat × ScanResultM => a.1 ≤ b.1)
      (List.insertionSort (fun a b : Nat × ScanResultM => a.1 ≤ b.1) L) :=
    List.sorted_insertionSort _ L
  have hndc : List.Pairwise (fun a b : Nat × ScanResultM => a.1 ≠ b.1) canon :=
    hcanon.imp (fun h => Nat.ne_of_lt h)
  have hndL : List.Pairwise (fun a b : Nat × ScanResultM => a.1 ≠ b.1)
      (List.insertionSort (fun a b : Nat × ScanResultM => a.1 ≤ b.1) L) :=
    (hp2.pairwise_iff (fun h => Ne.symm h)).mpr hndc
  have hlt : List.Pairwise (fun a b : Nat × ScanResultM => a.1 < b.1)
      (List.insertionSort (fun a b : Nat × ScanResultM => a.1 ≤ b.1) L) :=
    (List.Pairwise.and hs hndL).imp (fun h => Nat.lt_of_le_of_ne h.1 h.2)
  exact List.eq_of_perm_of_sorted hp2 hlt hcanon

/-- The grouped, flattened and re-sorted pipeline of scan_multiple restores
input order whenever the targets are distinct, for every completion order of
the host groups. -/
theorem scan_pipeline_eq (body : Str → Except Str ScanBody) (targets : List Str)
    (completed : List (Str × List Str)) (hnd : targets.Nodup)
    (hperm : completed.Perm (group_by_host targets)) :
    (List.insertionSort (fun a b : Nat × ScanResultM => a.1 ≤ b.1)
        (((completed.map (fun g => scan_host_group body g.2)).flatten).map
          (fun r => ((idxLookup (url_to_index targets) r.target).getD usizeMax,
            r)))).map
      (fun e => e.2) = targets.map (runScan body) := by
  have hflat : (completed.map (fun g => scan_host_group body g.2)).flatten
      = ((completed.map (fun g => g.2)).flatten).map (runScan body) := by
    rw [List.map_flatten, List.map_map]
    rfl
  have hpermflatten : ((completed.map (fun g => g.2)).flatten).Perm targets := by
    have h1 : (completed.map (fun g => g.2)).Perm
        ((group_by_host targets).map (fun g => g.2)) := hperm.map _
    refine h1.flatten.trans ?_
    rw [group_by_host_eq_spec]
    unfold groupSpec
    rw [List.map_map]
    have hc : ((fun g : Str × List Str => g.2) ∘
        (fun k => (k, targets.filter (fun u => urlKey u = k)))) =
        fun k => targets.filter (fun u => urlKey u = k) := rfl
    rw [hc]
    exact flatten_filter_perm (firstSeenKeys targets) targets
      (firstSeenKeys_nodup targets) (fun u hu => firstSeenKeys_covers hu)
  have hidx : ∀ p ∈ targets.enumFrom 0,
      idxLookup (url_to_index targets) p.2 = some p.1 := by
    intro p hp
    obtain ⟨i, u⟩ := p
    have hnd2 : ((targets.enumFrom 0).map (fun e => e.2)).Nodup := by
      have he : (targets.enumFrom 0).map (fun e : Nat × Str => e.2) = targets :=
        List.enumFrom_map_snd 0 targets
      rw [he]
      exact hnd
    exact foldl_idxInsert_lookup (targets.enumFrom 0) [] i u hnd2 hp
  have hin : (((completed.map (fun g => scan_host_group body g.2)).flatten).map
      (fun r => ((idxLookup (url_to_index targets) r.target).getD usizeMax,
        r))).Perm
      ((targets.enumFrom 0).map (fun e => (e.1, runScan body e.2))) := by
    rw [hflat, List.map_map]
    have hcomp : ((fun r : ScanResultM =>
        ((idxLookup (url_to_index targets) r.target).getD usizeMax, r)) ∘
          runScan body) =
        fun u => ((idxLookup (url_to_index targets) u).getD usizeMax,
          runScan body u) := by
      funext u
      show ((idxLookup (url_to_index targets) (runScan body u).target).getD usizeMax,
        runScan body u) = _
      rw [runScan_target]
    rw [hcomp]
    refine (hpermflatten.map _).trans ?_
    have heq : targets.map
        (fun u => ((idxLookup (url_to_index targets) u).getD usizeMax,
          runScan body u)) =
        (targets.enumFrom 0).map (fun e => (e.1, runScan body e.2)) := by
      refine map_eq_enumFrom_map _ _ targets 0 (fun p hp => ?_)
      rw [hidx p hp]
      rfl
    rw [heq]
  rw [sort_eq_of_perm_enum _ _ hin (pairwise_lt_enumFrom_map (runScan body) targets 0)]
  rw [List.map_map]
  have hc2 : ((fun e : Nat × ScanResultM => e.2) ∘
      (fun e : Nat × Str => (e.1, runScan body e.2))) =
      (runScan body) ∘ (fun e : Nat × Str => e.2) := rfl
  rw [hc2, ← List.map_map]
  have he : (targets.enumFrom 0).map (fun e : Nat × Str => e.2) = targets :=
    List.enumFrom_map_snd 0 targets
  rw [he]

/-- Claim C8 fails as stated: with a duplicated input URL the batch comes
back permuted, because the URL-to-index map keeps only the LAST input index
of each URL, so both duplicates sort to the later position. -/
theorem C8_counterexample :
    ¬ ((scan_multiple (fun u => Except.error u)
          [("https://a.com/".data), ("https://b.com/".data),
           ("https://a.com/".data)]
          (group_by_host
            [("https://a.com/".data), ("https://b.com/".data),
             ("https://a.com/".data)])).map ScanResultM.target =
        [("https://a.com/".data), ("https://b.com/".data),
         ("https://a.com/".data)]) := by
  decide

/-- Claim C8 (amended): when the input target URLs are pairwise distinct,
scan_multiple returns, for every completion order of the host groups,
exactly one result per input URL in input order, each result being the
per-URL scan of that URL; a per-URL failure is materialized into a result
whose errors list holds the error string. -/
theorem C8_batch_order :
    (∀ (body : Str → Except Str ScanBody) (targets : List Str)
        (completed : List (Str × List Str)),
      targets.Nodup → completed.Perm (group_by_host targets) →
      scan_multiple body targets completed = targets.map (runScan body) ∧
      (scan_multiple body targets completed).map ScanResultM.target = targets) ∧
    (∀ (body : Str → Except Str ScanBody) (u e : Str), body u = Except.error e →
      runScan body u =
        { target := u, js_files_count := 0, packages_found := 0,
          findings := [], errors := [e] }) := by
  constructor
  · intro body targets completed hnd hperm
    have hmain : scan_multiple body targets completed = targets.map (runScan body) := by
      match targets, hnd, hperm with
      | [], hnd, hperm => exact scan_pipeline_eq body [] completed hnd hperm
      | [t], _, _ => rfl
      | t1 :: t2 :: ts, hnd, hperm =>
        exact scan_pipeline_eq body (t1 :: t2 :: ts) completed hnd hperm
    refine ⟨hmain, ?_⟩
    rw [hmain, List.map_map]
    have hid : targets.map (ScanResultM.target ∘ runScan body) = targets.map id :=
      List.map_congr_left (fun u _ => runScan_target body u)
    rw [hid, List.map_id]
  · intro body u e h
    unfold runScan
    rw [h]

/-- Witness for C8 at two distinct URLs, with the host groups completing in
reversed order and a body that fails on every URL. -/
theorem C8_batch_order_witness :
    ([("https://a.com/".data), ("https://b.com/".data)] : List Str).Nodup ∧
    ((group_by_host [("https://a.com/".data), ("https://b.com/".data)]).reverse).Perm
      (group_by_host [("https://a.com/".data), ("https://b.com/".data)]) ∧
    scan_multiple (fun u => Except.error u)
        [("https://a.com/".data), ("https://b.com/".data)]
        ((group_by_host [("https://a.com/".data), ("https://b.com/".data)]).reverse) =
      [("https://a.com/".data), ("https://b.com/".data)].map
        (runScan (fun u => Except.error u)) ∧
    runScan (fun u => Except.error u) ("https://a.com/".data) =
      { target := ("https://a.com/".data), js_files_count := 0,
        packages_found := 0, findings := [],
        errors := [("https://a.com/".data)] } := by
  refine ⟨by decide, List.reverse_perm _, ?_, ?_⟩
  · exact (C8_batch_order.1 (fun u => Except.error u)
      [("https://a.com/".data), ("https://b.com/".data)]
      ((group_by_host [("https://a.com/".data), ("https://b.com/".data)]).reverse)
      (by decide) (List.reverse_perm _)).1
  · exact C8_batch_order.2 (fun u => Except.error u) ("https://a.com/".data)
      ("https://a.com/".data) rfl

end Depfused
